import Mathlib

/-!
Verification development for the archguard architecture-conformance engine:
a shallow embedding of the IR data model, the IR validator, the rule
evaluator, the baseline identity/diff machinery, the IR merge step and the
rule-DSL block/`when` parsing, together with theorems settling the spec
claims about them.

Python strings are modelled as `String`, ints as `Int`/`Nat`, floats that
only ever hold decimal literals and are compared with `<=` as `Rat`,
`None`-able values as `Option`, tuples/lists as `List`, and string-keyed
dicts as association lists.  A Python callable that may raise is modelled
as a function into `Option` (`none` = the call raised).
-/

namespace ArchGuard

/-- Characters treated as whitespace by Python `str.strip()` (the ASCII
ones, which are the only ones the embedded strings contain). -/
def isPySpace (c : Char) : Bool :=
  c = ' ' || c = '\t' || c = '\n' || c = '\r' || c = '\x0b' || c = '\x0c'

/-- Python `str.strip()`: drop leading and trailing whitespace. -/
def pyStrip (s : String) : String :=
  ⟨((s.data.dropWhile isPySpace).reverse.dropWhile isPySpace).reverse⟩

/-- Keep the first occurrence of each element, dropping later duplicates
(the key order of a Python dict built by repeated assignment). -/
def dedupFirstAux [DecidableEq α] : List α → List α → List α
  | [], _ => []
  | x :: xs, seen =>
    if x ∈ seen then dedupFirstAux xs seen else x :: dedupFirstAux xs (x :: seen)

/-- Deduplicate a list keeping first occurrences. -/
def dedupFirst [DecidableEq α] (l : List α) : List α :=
  dedupFirstAux l []

-- IR enums (archguard/ir/types.py); `value` is the Python `StrEnum` value.

/-- Source language tag of `CanonicalId` (archguard/ir/types.py `Language`). -/
inductive Language
  | python | java | typescript | javascript | go | unknown
  deriving DecidableEq, Repr

/-- The Python `.value` string of a `Language` member. -/
def Language.value : Language → String
  | .python => "python"
  | .java => "java"
  | .typescript => "typescript"
  | .javascript => "javascript"
  | .go => "go"
  | .unknown => "unknown"

/-- Node kind (archguard/ir/types.py `SymbolKind`); `cls`/`var` stand for the
Python members `CLASS`/`VARIABLE`, which are Lean keywords. -/
inductive SymbolKind
  | repo | container | file | package | module | cls | interface
  | function | method | var
  deriving DecidableEq, Repr

/-- The Python `.value` string of a `SymbolKind` member. -/
def SymbolKind.value : SymbolKind → String
  | .repo => "repo"
  | .container => "container"
  | .file => "file"
  | .package => "package"
  | .module => "module"
  | .cls => "class"
  | .interface => "interface"
  | .function => "function"
  | .method => "method"
  | .var => "variable"

/-- Dependency kind (archguard/ir/types.py `DepType`); `imp`/`req`/`incl`
stand for the Python members `IMPORT`/`REQUIRE`/`INCLUDE`. -/
inductive DepType
  | imp | req | incl | typeRef | call
  | httpCall | eventPublish | eventConsume | dbQuery
  deriving DecidableEq, Repr

/-- The Python `.value` string of a `DepType` member. -/
def DepType.value : DepType → String
  | .imp => "import"
  | .req => "require"
  | .incl => "include"
  | .typeRef => "type_ref"
  | .call => "call"
  | .httpCall => "http_call"
  | .eventPublish => "event_publish"
  | .eventConsume => "event_consume"
  | .dbQuery => "db_query"

/-- Severity of a violation (archguard/ir/types.py `Severity`). -/
inductive Severity
  | error | warning | info
  deriving DecidableEq, Repr

/-- The Python `.value` string of a `Severity` member. -/
def Severity.value : Severity → String
  | .error => "error"
  | .warning => "warning"
  | .info => "info"

-- Source locations (archguard/ir/types.py)

/-- archguard/ir/types.py `SourcePos`. -/
@[ext]
structure SourcePos where
  line : Nat
  column : Nat := 1
  deriving DecidableEq, Repr

/-- archguard/ir/types.py `SourceLoc`. -/
@[ext]
structure SourceLoc where
  file : String
  start : SourcePos
  «end» : Option SourcePos := none
  deriving DecidableEq, Repr

/-- archguard/ir/types.py `CanonicalId`. -/
@[ext]
structure CanonicalId where
  language : Language
  code_root : String
  fqname : String
  deriving DecidableEq, Repr

/-- Source `CanonicalId.__str__`: the canonical text form
`"{language}://{code_root}::{fqname}"`. -/
def cidStr (i : CanonicalId) : String :=
  i.language.value ++ "://" ++ i.code_root ++ "::" ++ i.fqname

/-- archguard/ir/types.py `IRNode`.  The `attributes` mapping of the source
is `Mapping[str, Any]`; the embedded IRs only ever carry string attribute
values, so it is modelled as an association list of strings. -/
@[ext]
structure IRNode where
  id : CanonicalId
  kind : SymbolKind
  name : Option String := none
  path : Option String := none
  loc : Option SourceLoc := none
  container : Option String := none
  layer : Option String := none
  context : Option String := none
  tags : List String := []
  attributes : List (String × String) := []
  deriving DecidableEq, Repr

/-- archguard/ir/types.py `IREdge`; `confidence` is a Python float compared
only against the bounds 0 and 1, modelled exactly as a rational. -/
@[ext]
structure IREdge where
  src : CanonicalId
  dst : CanonicalId
  dep_type : DepType
  loc : Option SourceLoc := none
  confidence : Rat := 1
  details : List (String × String) := []
  src_container : Option String := none
  src_layer : Option String := none
  src_context : Option String := none
  dst_container : Option String := none
  dst_layer : Option String := none
  dst_context : Option String := none
  deriving DecidableEq, Repr

/-- archguard/ir/types.py `ArchitectureIR`. -/
structure ArchitectureIR where
  schema_version : Int
  produced_by : String
  repo_root : String
  nodes : List IRNode
  edges : List IREdge
  metadata : List (String × String) := []
  deriving DecidableEq, Repr

/-- Source `ArchitectureIR.empty`: convenience constructor for an empty IR. -/
def ArchitectureIR.empty (repo_root : String) : ArchitectureIR :=
  { schema_version := 1
    produced_by := "archguard-core"
    repo_root := repo_root
    nodes := []
    edges := []
    metadata := [] }

-- Reporting types (archguard/reporting/types.py)

/-- archguard/reporting/types.py `ReportLocation`. -/
structure ReportLocation where
  file : String
  line : Nat
  column : Nat := 1
  end_line : Option Nat := none
  end_column : Option Nat := none
  deriving DecidableEq, Repr

/-- A value stored in the `details` mapping of an `EngineError`
(`Mapping[str, Any]` in the source; the validator stores ints, rationals,
booleans, strings and node/edge dumps). -/
inductive DVal
  | s (v : String)
  | i (v : Int)
  | q (v : Rat)
  | b (v : Bool)
  | nodeDump (v : IRNode)
  | edgeDump (v : IREdge)
  | optI (v : Option Int)
  deriving DecidableEq, Repr

/-- archguard/reporting/types.py `EngineError`; `type` is one of the
`EngineErrorType` literal strings. -/
structure EngineError where
  type : String
  message : String
  location : Option ReportLocation := none
  details : List (String × DVal) := []
  deriving DecidableEq, Repr

-- IR validation (archguard/ir/validate.py)

/-- archguard/ir/validate.py `IRValidationOptions`. -/
structure IRValidationOptions where
  strict_references : Bool := false
  max_nodes : Option Nat := none
  max_edges : Option Nat := none
  deriving DecidableEq, Repr

/-- archguard/ir/validate.py `_edge_loc`. -/
def edge_loc (e : IREdge) : Option ReportLocation :=
  match e.loc with
  | none => none
  | some loc =>
    some { file := loc.file
           line := loc.start.line
           column := loc.start.column
           end_line := loc.end.map (·.line)
           end_column := loc.end.map (·.column) }

/-- The node-uniqueness loop of `validate_ir`: walks the nodes carrying the
`seen_nodes` set (a list used only through membership), emitting the
empty-id and duplicate-id errors in order, and returns the errors together
with the final set of node id strings. -/
def node_checks : List IRNode → List String → List EngineError × List String
  | [], seen => ([], seen)
  | n :: rest, seen =>
    let nid := cidStr n.id
    if pyStrip nid = "" then
      let (errs, ids) := node_checks rest seen
      ({ type := "runtime_error"
         message := "IR node has empty canonical id"
         location := none
         details := [("node", DVal.nodeDump n)] } :: errs, ids)
    else if nid ∈ seen then
      let (errs, ids) := node_checks rest seen
      ({ type := "runtime_error"
         message := "Duplicate IR node id detected"
         location := none
         details := [("node_id", DVal.s nid)] } :: errs, ids)
    else
      node_checks rest (nid :: seen)

/-- The per-edge checks of `validate_ir` (confidence range, empty endpoint
ids, optional strict references), in source order. -/
def edge_checks (opts : IRValidationOptions) (node_ids : List String)
    (e : IREdge) : List EngineError :=
  (if ¬ (0 ≤ e.confidence ∧ e.confidence ≤ 1) then
    [{ type := "runtime_error"
       message := "Edge confidence must be within [0,1]"
       location := edge_loc e
       details := [("confidence", DVal.q e.confidence),
                   ("src", DVal.s (cidStr e.src)),
                   ("dst", DVal.s (cidStr e.dst)),
                   ("dep_type", DVal.s e.dep_type.value)] }]
  else []) ++
  (if pyStrip (cidStr e.src) = "" ∨ pyStrip (cidStr e.dst) = "" then
    [{ type := "runtime_error"
       message := "Edge has empty src or dst canonical id"
       location := edge_loc e
       details := [("edge", DVal.edgeDump e)] }]
  else []) ++
  (if opts.strict_references then
    if ¬ (cidStr e.src ∈ node_ids) ∨ ¬ (cidStr e.dst ∈ node_ids) then
      [{ type := "runtime_error"
         message := "Edge references missing node(s) (strict mode)"
         location := edge_loc e
         details := [("missing_src", DVal.b (¬ (cidStr e.src ∈ node_ids))),
                     ("missing_dst", DVal.b (¬ (cidStr e.dst ∈ node_ids))),
                     ("src", DVal.s (cidStr e.src)),
                     ("dst", DVal.s (cidStr e.dst)),
                     ("dep_type", DVal.s e.dep_type.value)] }]
    else []
  else [])

/-- archguard/ir/validate.py `validate_ir`: pure structural validation that
only ever returns a list of `EngineError`s (the source neither raises nor
mutates the IR; the embedding is a total function of the IR). -/
def validate_ir (ir : ArchitectureIR) (opts? : Option IRValidationOptions) :
    List EngineError :=
  let opts := opts?.getD {}
  let schemaErrs : List EngineError :=
    if ir.schema_version ≤ 0 then
      [{ type := "runtime_error"
         message := "Invalid IR schema_version: " ++ toString ir.schema_version
         location := none
         details := [("schema_version", DVal.i ir.schema_version)] }]
    else []
  let sizeErrs : List EngineError :=
    (match opts.max_nodes with
     | some m =>
       if ir.nodes.length > m then
         [{ type := "runtime_error"
            message := "IR contains too many nodes"
            location := none
            details := [("nodes", DVal.i ir.nodes.length),
                        ("max_nodes", DVal.i m)] }]
       else []
     | none => []) ++
    (match opts.max_edges with
     | some m =>
       if ir.edges.length > m then
         [{ type := "runtime_error"
            message := "IR contains too many edges"
            location := none
            details := [("edges", DVal.i ir.edges.length),
                        ("max_edges", DVal.i m)] }]
       else []
     | none => [])
  let nodeErrs := (node_checks ir.nodes []).1
  let node_ids := (node_checks ir.nodes []).2
  let edgeErrs := ir.edges.flatMap (edge_checks opts node_ids)
  schemaErrs ++ sizeErrs ++ nodeErrs ++ edgeErrs

-- Rule runtime types and the evaluator (archguard/rules/evaluator.py).
-- The evaluator accesses a compiled rule through the fields
-- `when`, `except_when`, `id`, `name`, `severity`, `message`, `suggestion`,
-- `tags`, `action`, `target` (note: archguard/rules/types.py declares the
-- predicate fields under the names `predicate`/`except_predicates`; the
-- embedding follows the field names the evaluator actually reads).

/-- archguard/rules/types.py `RuleTarget`. -/
inductive RuleTarget
  | dependency | node
  deriving DecidableEq, Repr

/-- archguard/rules/types.py `RuleAction`. -/
inductive RuleAction
  | forbid | allow | require
  deriving DecidableEq, Repr

/-- The dynamically-typed element a compiled predicate receives (an `IRNode`
for node rules, an `IREdge` for dependency rules). -/
inductive RuleElem
  | node (n : IRNode)
  | edge (e : IREdge)
  deriving DecidableEq, Repr

/-- A compiled predicate: a Python callable that either returns a truth
value or raises; `none` models the call raising. -/
def RulePred : Type := RuleElem → Option Bool

/-- A compiled rule as consumed by `DefaultRuleEvaluator`. -/
structure Rule where
  id : String
  name : String
  description : Option String := none
  severity : Severity := .error
  target : RuleTarget := .dependency
  «when» : RulePred
  action : RuleAction := .forbid
  message : Option String := none
  suggestion : Option String := none
  except_when : List RulePred := []
  tags : List String := []

/-- archguard/rules/types.py `RuleSet`. -/
structure RuleSet where
  rules : List Rule

/-- The `details` dict of a `Violation` as built by the evaluator: one shape
per construction site (`_eval_edge_rule`, `_eval_node_rule`,
`_require_missing_violation`). -/
inductive VDetails
  | dep (dep_type src_id dst_id src_fqname dst_fqname : String)
      (src_container src_layer src_context
       dst_container dst_layer dst_context : Option String)
  | node (node_id fqname kind : String)
      (path container layer context : Option String)
  | requireMissing (target : String)
  deriving DecidableEq, Repr

/-- Lookup `details.get("target")`: `"dependency"`/`"node"` for element violations,
the stored target string for a require-missing violation. -/
def VDetails.target : VDetails → String
  | .dep .. => "dependency"
  | .node .. => "node"
  | .requireMissing t => t

/-- Lookup `details.get("dep_type")`. -/
def VDetails.depType? : VDetails → Option String
  | .dep dt .. => some dt
  | _ => none

/-- Lookup `details.get("src_id")`. -/
def VDetails.srcId? : VDetails → Option String
  | .dep _ si .. => some si
  | _ => none

/-- Lookup `details.get("dst_id")`. -/
def VDetails.dstId? : VDetails → Option String
  | .dep _ _ di .. => some di
  | _ => none

/-- Lookup `details.get("node_id")`. -/
def VDetails.nodeId? : VDetails → Option String
  | .node ni .. => some ni
  | _ => none

/-- A violation in the keyword-argument shape `DefaultRuleEvaluator`
constructs and `ViolationKeyStrategy`/`BaselineComparer` consume
(`rule_id`, `rule_name`, `severity`, `message`, `location`, `details`,
`suggestion`, `tags`). -/
structure Violation where
  rule_id : String
  rule_name : String
  severity : Severity
  message : Option String := none
  location : Option ReportLocation := none
  details : VDetails
  suggestion : Option String := none
  tags : List String := []
  deriving DecidableEq, Repr

/-- Modelled from the spec: `archguard.ir.index` (`IRIndex`, `build_index`)
is imported by the evaluator but absent from the source tree.  Per spec
§4.2 the index is a read-only lookup/adjacency structure over the immutable
node and edge sequences of an IR; the evaluator uses only `idx.nodes` and
`idx.edges`, which the model keeps. -/
structure IRIndex where
  nodes : List IRNode
  edges : List IREdge

/-- Modelled from the spec: `build_index(ir)` exposes the IR's node and edge
sequences unchanged. -/
def build_index (ir : ArchitectureIR) : IRIndex :=
  { nodes := ir.nodes, edges := ir.edges }

/-- evaluator.py `_node_location`. -/
def node_location (n : IRNode) : Option ReportLocation :=
  match n.loc with
  | none => none
  | some loc =>
    some { file := loc.file
           line := loc.start.line
           column := loc.start.column
           end_line := loc.end.map (·.line)
           end_column := loc.end.map (·.column) }

/-- evaluator.py `_edge_location` (same body as `_node_location`). -/
def edge_location (e : IREdge) : Option ReportLocation :=
  match e.loc with
  | none => none
  | some loc =>
    some { file := loc.file
           line := loc.start.line
           column := loc.start.column
           end_line := loc.end.map (·.line)
           end_column := loc.end.map (·.column) }

/-- evaluator.py `_passes_exceptions`: if ANY exception predicate matches,
exclude; a raising exception predicate (`none`) is treated as "not
excluded" and the loop continues. -/
def passes_exceptions (obj : RuleElem) : List RulePred → Bool
  | [] => true
  | ex :: rest =>
    match ex obj with
    | some true => false
    | _ => passes_exceptions obj rest

/-- The per-element test inside the evaluator's `try` block:
`rule.when(obj) and _passes_exceptions(obj, rule.except_when)`, with a
raising main predicate caught and treated as non-matching. -/
def rule_matches (r : Rule) (obj : RuleElem) : Bool :=
  match r.when obj with
  | some true => passes_exceptions obj r.except_when
  | _ => false

/-- The `matches` list accumulated by `_eval_node_rule`. -/
def node_survivors (r : Rule) (idx : IRIndex) : List IRNode :=
  idx.nodes.filter (fun n => rule_matches r (.node n))

/-- The `matches` list accumulated by `_eval_edge_rule`. -/
def edge_survivors (r : Rule) (idx : IRIndex) : List IREdge :=
  idx.edges.filter (fun e => rule_matches r (.edge e))

/-- evaluator.py `_require_missing_violation`; `rule.message or default`
follows Python truthiness (an empty string also falls back). -/
def require_missing_violation (r : Rule) (target : String) : Violation :=
  let defaultMsg := "Required " ++ target ++ " pattern not found."
  let msg :=
    match r.message with
    | none => defaultMsg
    | some m => if m = "" then defaultMsg else m
  { rule_id := r.id
    rule_name := r.name
    severity := r.severity
    message := some msg
    location := none
    details := .requireMissing target
    suggestion := r.suggestion
    tags := r.tags }

/-- The FORBID violation `_eval_node_rule` constructs for one matched node. -/
def node_forbid_violation (r : Rule) (n : IRNode) : Violation :=
  { rule_id := r.id
    rule_name := r.name
    severity := r.severity
    message := r.message
    location := node_location n
    details := .node (cidStr n.id) n.id.fqname n.kind.value
      n.path n.container n.layer n.context
    suggestion := r.suggestion
    tags := r.tags }

/-- The FORBID violation `_eval_edge_rule` constructs for one matched edge. -/
def edge_forbid_violation (r : Rule) (e : IREdge) : Violation :=
  { rule_id := r.id
    rule_name := r.name
    severity := r.severity
    message := r.message
    location := edge_location e
    details := .dep e.dep_type.value (cidStr e.src) (cidStr e.dst)
      e.src.fqname e.dst.fqname
      e.src_container e.src_layer e.src_context
      e.dst_container e.dst_layer e.dst_context
    suggestion := r.suggestion
    tags := r.tags }

/-- evaluator.py `DefaultRuleEvaluator._eval_node_rule`. -/
def eval_node_rule (r : Rule) (idx : IRIndex) : List Violation :=
  let ms := node_survivors r idx
  if r.action = .require then
    if ms.isEmpty then [require_missing_violation r "node"] else []
  else if r.action = .allow then []
  else ms.map (node_forbid_violation r)

/-- evaluator.py `DefaultRuleEvaluator._eval_edge_rule`. -/
def eval_edge_rule (r : Rule) (idx : IRIndex) : List Violation :=
  let ms := edge_survivors r idx
  if r.action = .require then
    if ms.isEmpty then [require_missing_violation r "dependency"] else []
  else if r.action = .allow then []
  else ms.map (edge_forbid_violation r)

/-- evaluator.py `DefaultRuleEvaluator.evaluate`: per-rule dispatch on the
rule target, concatenating in rule order. -/
def evaluate (rules : RuleSet) (idx : IRIndex) : List Violation :=
  rules.rules.flatMap fun r =>
    match r.target with
    | .node => eval_node_rule r idx
    | .dependency => eval_edge_rule r idx

-- Baseline identity (archguard/rules/baseline.py).
--
-- `_stable_json` is `json.dumps(payload, sort_keys=True, separators=(",",":"),
-- ensure_ascii=False)`; `_sha1` hashes that text.  The key is modelled as the
-- canonical JSON text itself: SHA-1 is a fixed function of the text, so key
-- equality in the source is exactly equality of these payload texts (treating
-- the hash as collision-free, which the source relies on for baselines).

/-- Lowercase hex digit, as produced by Python `"%04x"` formatting. -/
def hexDigit (n : Nat) : Char :=
  if n < 10 then Char.ofNat (48 + n) else Char.ofNat (87 + n)

/-- Numeric value of a lowercase hex digit. -/
def hexVal (c : Char) : Nat :=
  if 97 ≤ c.toNat then c.toNat - 87 else c.toNat - 48

/-- The `json.dumps` escaping of one character (`ensure_ascii=False`): the quote,
backslash and ASCII control characters are escaped, everything else passes
through unchanged. -/
def escC (c : Char) : List Char :=
  if c = '\\' then ['\\', '\\']
  else if c = '"' then ['\\', '"']
  else if c = '\x08' then ['\\', 'b']
  else if c = '\x0c' then ['\\', 'f']
  else if c = '\n' then ['\\', 'n']
  else if c = '\r' then ['\\', 'r']
  else if c = '\t' then ['\\', 't']
  else if c.toNat < 32 then
    ['\\', 'u', '0', '0', hexDigit (c.toNat / 16), hexDigit (c.toNat % 16)]
  else [c]

/-- The `json.dumps` escaping of a character sequence. -/
def jsonEscape (l : List Char) : List Char :=
  l.flatMap escC

/-- A JSON string literal: quoted, escaped text. -/
def qstr (s : String) : List Char :=
  '"' :: (jsonEscape s.data ++ ['"'])

/-- A JSON string-or-null value (`details.get` may return `None`). -/
def jopt : Option String → List Char
  | none => "null".data
  | some s => qstr s

/-- The canonical JSON text of the dependency-violation key payload
`{"rule", "target": "dependency", "dep_type", "src_id", "dst_id"}`
(keys emitted in sorted order by `_stable_json`). -/
def dep_key_payload (rule : String) (dep_type src_id dst_id : Option String) :
    String :=
  ⟨"\x7b\"dep_type\":".data ++ jopt dep_type ++
   ",\"dst_id\":".data ++ jopt dst_id ++
   ",\"rule\":".data ++ qstr rule ++
   ",\"src_id\":".data ++ jopt src_id ++
   ",\"target\":\"dependency\"\x7d".data⟩

/-- The canonical JSON text of the node-violation key payload
`{"rule", "target": "node", "node_id"}`. -/
def node_key_payload (rule : String) (node_id : Option String) : String :=
  ⟨"\x7b\"node_id\":".data ++ jopt node_id ++
   ",\"rule\":".data ++ qstr rule ++
   ",\"target\":\"node\"\x7d".data⟩

/-- The canonical JSON text of the fallback key payload
`{"rule", "target", "message"}` (the "shouldn't happen" branch). -/
def fallback_key_payload (rule : String) (message : Option String)
    (target : String) : String :=
  ⟨"\x7b\"message\":".data ++ jopt message ++
   ",\"rule\":".data ++ qstr rule ++
   ",\"target\":".data ++ qstr target ++
   "\x7d".data⟩

/-- baseline.py `ViolationKeyStrategy.key_for`, dispatching on
`details.get("target")`: the stable key is a hash of the canonical JSON
payload, modelled as the payload text (see the section comment). -/
def key_for (v : Violation) : String :=
  match v.details with
  | .dep dt si di .. => dep_key_payload v.rule_id (some dt) (some si) (some di)
  | .node ni .. => node_key_payload v.rule_id (some ni)
  | .requireMissing t =>
    if t = "dependency" then dep_key_payload v.rule_id none none none
    else if t = "node" then node_key_payload v.rule_id none
    else fallback_key_payload v.rule_id v.message t

-- Baseline comparison (archguard/rules/baseline.py `BaselineComparer`).

/-- The order Python `sorted` uses on `str` (code-point lexicographic),
stated on the character data so that it is kernel-computable. -/
def pyLe (a b : String) : Prop := a.data ≤ b.data

/-- Strict version of `pyLe`. -/
def pyLt (a b : String) : Prop := a.data < b.data

instance : DecidableRel pyLe :=
  fun a b => inferInstanceAs (Decidable (a.data ≤ b.data))

instance : DecidableRel pyLt :=
  fun a b => inferInstanceAs (Decidable (a.data < b.data))

instance : IsTrans String pyLe := ⟨fun _ _ _ h1 h2 => le_trans h1 h2⟩

instance : IsTotal String pyLe := ⟨fun a b => le_total a.data b.data⟩

instance : IsAntisymm String pyLe :=
  ⟨fun a b h1 h2 => by
    cases a; cases b
    exact congrArg String.mk (le_antisymm h1 h2)⟩

/-- Python `sorted` on a list of strings. -/
def sortStrings (l : List String) : List String :=
  l.insertionSort pyLe

/-- The keys of the Python dict `{key_for(v): v for v in vs}`, in insertion
order (later duplicates overwrite the value but keep the first position). -/
def dict_keys (vs : List Violation) : List String :=
  dedupFirst (vs.map key_for)

/-- Lookup in the dict `{key_for(v): v for v in vs}`: the value is the last
violation written under that key. -/
def dict_get (vs : List Violation) (k : String) : Option Violation :=
  vs.reverse.find? (fun v => key_for v = k)

/-- baseline.py `BaselineResult`. -/
structure BaselineResult where
  new : List Violation
  existing : List Violation
  fixed : List Violation
  deriving DecidableEq, Repr

/-- baseline.py `BaselineComparer.compare`: key-set differences and
intersection of the two key-to-violation dicts, each returned sorted by
key and resolved through the corresponding dict. -/
def compare (current baseline : List Violation) : BaselineResult :=
  let ck := dict_keys current
  let bk := dict_keys baseline
  let new_keys := ck.filter (fun k => decide (k ∉ bk))
  let existing_keys := ck.filter (fun k => decide (k ∈ bk))
  let fixed_keys := bk.filter (fun k => decide (k ∉ ck))
  { new := (sortStrings new_keys).filterMap (dict_get current)
    existing := (sortStrings existing_keys).filterMap (dict_get current)
    fixed := (sortStrings fixed_keys).filterMap (dict_get baseline) }

-- IR merge (spec §4.1).
--
-- Modelled from the spec: `archguard.ir.merge.DefaultIRMerger` is imported
-- by the engine (core/engine.py) but absent from the source tree.  Per spec
-- §4.1, merge unions nodes/edges from all inputs, deduplicates nodes by
-- canonical-id string and edges by `(src, dst, dep_type)`, keeps the most
-- informative colliding fact (prefer non-null `loc`; for edges prefer the
-- higher `confidence`), and sorts nodes by canonical id and edges by
-- `(src, dst, dep_type)`.  The spec leaves residual ties unspecified; the
-- model resolves them by a fixed total order on the full record (loc
-- presence / confidence first), which makes "most informative" well-defined
-- and the merge order-independent as §4.1 demands.

/-- The `isSome` flag of an optional string, encoded as character data. -/
def optFlag (o : Option String) : List Char :=
  if o.isSome then ['1'] else []

/-- The payload of an optional string (empty when absent). -/
def optVal (o : Option String) : List Char :=
  (o.getD "").data

/-- An association list of strings flattened to its entries' data. -/
def pairsFlat (l : List (String × String)) : List (List Char) :=
  l.flatMap (fun p => [p.1.data, p.2.data])

/-- The sort/tie-break key of a node: `loc` presence first (the spec's
"prefer non-null loc"), then the remaining fields, packed injectively. -/
def nodeSortKey (n : IRNode) :
    Bool ×ₗ Nat ×ₗ Nat ×ₗ Bool ×ₗ Nat ×ₗ Nat ×ₗ Nat ×ₗ List (List Char) :=
  toLex (n.loc.isSome,
    toLex ((n.loc.map (·.start.line)).getD 0,
      toLex ((n.loc.map (·.start.column)).getD 0,
        toLex ((n.loc.bind (·.«end»)).isSome,
          toLex (((n.loc.bind (·.«end»)).map (·.line)).getD 0,
            toLex (((n.loc.bind (·.«end»)).map (·.column)).getD 0,
              toLex (n.tags.length,
                n.id.language.value.data :: n.id.code_root.data ::
                n.id.fqname.data :: n.kind.value.data ::
                optFlag n.name :: optVal n.name ::
                optFlag n.path :: optVal n.path ::
                optFlag n.container :: optVal n.container ::
                optFlag n.layer :: optVal n.layer ::
                optFlag n.context :: optVal n.context ::
                ((n.loc.map (·.file)).getD "").data ::
                (n.tags.map (·.data) ++ pairsFlat n.attributes))))))))

/-- The sort/tie-break key of an edge: `confidence` first (the spec's
"prefer the higher edge confidence"), then `loc` presence, then the
remaining fields, packed injectively. -/
def edgeSortKey (e : IREdge) :
    Rat ×ₗ Bool ×ₗ Nat ×ₗ Nat ×ₗ Bool ×ₗ Nat ×ₗ Nat ×ₗ List (List Char) :=
  toLex (e.confidence,
    toLex (e.loc.isSome,
      toLex ((e.loc.map (·.start.line)).getD 0,
        toLex ((e.loc.map (·.start.column)).getD 0,
          toLex ((e.loc.bind (·.«end»)).isSome,
            toLex (((e.loc.bind (·.«end»)).map (·.line)).getD 0,
              toLex (((e.loc.bind (·.«end»)).map (·.column)).getD 0,
                e.src.language.value.data :: e.src.code_root.data ::
                e.src.fqname.data ::
                e.dst.language.value.data :: e.dst.code_root.data ::
                e.dst.fqname.data :: e.dep_type.value.data ::
                optFlag e.src_container :: optVal e.src_container ::
                optFlag e.src_layer :: optVal e.src_layer ::
                optFlag e.src_context :: optVal e.src_context ::
                optFlag e.dst_container :: optVal e.dst_container ::
                optFlag e.dst_layer :: optVal e.dst_layer ::
                optFlag e.dst_context :: optVal e.dst_context ::
                ((e.loc.map (·.file)).getD "").data ::
                pairsFlat e.details)))))))

/-- Two strings with equal character data are equal. -/
theorem str_data_inj : ∀ {a b : String}, a.data = b.data → a = b := by
  intro a b h
  cases a
  cases b
  exact congrArg String.mk h

/-- The `Language.value` character data determines the member. -/
theorem lang_value_data_inj :
    ∀ a b : Language, a.value.data = b.value.data → a = b := by
  intro a b
  cases a <;> cases b <;> decide

/-- The `SymbolKind.value` character data determines the member. -/
theorem kind_value_data_inj :
    ∀ a b : SymbolKind, a.value.data = b.value.data → a = b := by
  intro a b
  cases a <;> cases b <;> decide

/-- The `DepType.value` character data determines the member. -/
theorem dep_value_data_inj :
    ∀ a b : DepType, a.value.data = b.value.data → a = b := by
  intro a b
  cases a <;> cases b <;> decide

/-- The flag/payload pair determines an optional string. -/
theorem opt_inj : ∀ {a b : Option String},
    optFlag a = optFlag b → optVal a = optVal b → a = b := by
  intro a b hf hv
  cases a <;> cases b <;> simp [optFlag, optVal] at hf hv ⊢
  exact str_data_inj hv

/-- The map `pairsFlat` is injective. -/
theorem pairsFlat_inj : ∀ {l1 l2 : List (String × String)},
    pairsFlat l1 = pairsFlat l2 → l1 = l2 := by
  intro l1
  induction l1 with
  | nil =>
    intro l2 h
    cases l2 with
    | nil => rfl
    | cons p t => simp [pairsFlat] at h
  | cons p t ih =>
    intro l2 h
    cases l2 with
    | nil => simp [pairsFlat] at h
    | cons q u =>
      simp only [pairsFlat, List.flatMap_cons, List.cons_append, List.nil_append,
        List.cons.injEq] at h
      obtain ⟨h1, h2, h3⟩ := h
      have := ih h3
      subst this
      rw [Prod.ext (str_data_inj h1) (str_data_inj h2)]

/-- Mapping `String.data` over a list is injective. -/
theorem map_data_inj : ∀ {l1 l2 : List String},
    l1.map (·.data) = l2.map (·.data) → l1 = l2 := by
  intro l1
  induction l1 with
  | nil =>
    intro l2 h
    cases l2 with
    | nil => rfl
    | cons p t => simp at h
  | cons p t ih =>
    intro l2 h
    cases l2 with
    | nil => simp at h
    | cons q u =>
      simp only [List.map_cons, List.cons.injEq] at h
      rw [str_data_inj h.1, ih h.2]

/-- The packed location components determine an optional `SourceLoc`. -/
theorem loc_components_inj : ∀ {a b : Option SourceLoc},
    a.isSome = b.isSome →
    (a.map (·.start.line)).getD 0 = (b.map (·.start.line)).getD 0 →
    (a.map (·.start.column)).getD 0 = (b.map (·.start.column)).getD 0 →
    (a.bind (·.«end»)).isSome = (b.bind (·.«end»)).isSome →
    ((a.bind (·.«end»)).map (·.line)).getD 0 =
      ((b.bind (·.«end»)).map (·.line)).getD 0 →
    ((a.bind (·.«end»)).map (·.column)).getD 0 =
      ((b.bind (·.«end»)).map (·.column)).getD 0 →
    ((a.map (·.file)).getD "").data = ((b.map (·.file)).getD "").data →
    a = b := by
  intro a b hs hl hc hes hel hec hf
  cases a <;> cases b <;> simp_all
  rename_i la lb
  obtain ⟨fa, ⟨sa1, sa2⟩, ea⟩ := la
  obtain ⟨fb, ⟨sb1, sb2⟩, eb⟩ := lb
  simp_all
  refine ⟨str_data_inj hf, ?_⟩
  cases ea <;> cases eb <;> simp_all
  rename_i pa pb
  obtain ⟨pa1, pa2⟩ := pa
  obtain ⟨pb1, pb2⟩ := pb
  simp_all

/-- The node sort key is injective: equal keys force equal nodes. -/
theorem nodeSortKey_inj : Function.Injective nodeSortKey := by
  intro a b h
  simp only [nodeSortKey, toLex_inj, Prod.mk.injEq, List.cons.injEq] at h
  obtain ⟨hls, hll, hlc, hes, hel, hec, htl,
    hlang, hroot, hfq, hkind, hnf, hnv, hpf, hpv, hcf, hcv,
    hlaf, hlav, hxf, hxv, hfile, htail⟩ := h
  have htags : a.tags.map (·.data) = b.tags.map (·.data) ∧
      pairsFlat a.attributes = pairsFlat b.attributes := by
    refine List.append_inj htail ?_
    simpa using htl
  have hid : a.id = b.id :=
    CanonicalId.ext (lang_value_data_inj _ _ hlang) (str_data_inj hroot)
      (str_data_inj hfq)
  exact IRNode.ext hid (kind_value_data_inj _ _ hkind) (opt_inj hnf hnv)
    (opt_inj hpf hpv) (loc_components_inj hls hll hlc hes hel hec hfile)
    (opt_inj hcf hcv) (opt_inj hlaf hlav) (opt_inj hxf hxv)
    (map_data_inj htags.1) (pairsFlat_inj htags.2)

/-- The edge sort key is injective: equal keys force equal edges. -/
theorem edgeSortKey_inj : Function.Injective edgeSortKey := by
  intro a b h
  simp only [edgeSortKey, toLex_inj, Prod.mk.injEq, List.cons.injEq] at h
  obtain ⟨hconf, hls, hll, hlc, hes, hel, hec,
    hsl, hsr, hsf, hdl, hdr, hdf, hdt,
    hscf, hscv, hslf, hslv, hsxf, hsxv,
    hdcf, hdcv, hdlf, hdlv, hdxf, hdxv, hfile, htail⟩ := h
  have hsrc : a.src = b.src :=
    CanonicalId.ext (lang_value_data_inj _ _ hsl) (str_data_inj hsr)
      (str_data_inj hsf)
  have hdst : a.dst = b.dst :=
    CanonicalId.ext (lang_value_data_inj _ _ hdl) (str_data_inj hdr)
      (str_data_inj hdf)
  exact IREdge.ext hsrc hdst (dep_value_data_inj _ _ hdt)
    (loc_components_inj hls hll hlc hes hel hec hfile) hconf
    (pairsFlat_inj htail)
    (opt_inj hscf hscv) (opt_inj hslf hslv) (opt_inj hsxf hsxv)
    (opt_inj hdcf hdcv) (opt_inj hdlf hdlv) (opt_inj hdxf hdxv)

instance : LinearOrder IRNode := LinearOrder.lift' nodeSortKey nodeSortKey_inj

instance : LinearOrder IREdge := LinearOrder.lift' edgeSortKey edgeSortKey_inj

/-- The edge identity key `(src, dst, dep_type)` the spec groups and sorts
edges by, as kernel-computable character data. -/
def edgeIdKey (e : IREdge) : List Char ×ₗ List Char ×ₗ List Char :=
  toLex ((cidStr e.src).data, toLex ((cidStr e.dst).data, e.dep_type.value.data))

/-- Modelled from the spec: the merged fact for one node identity group is
the "most informative" member, i.e. the maximum under the tie-break order
(`loc` presence first). -/
def node_group_best (ns : List IRNode) (k : List Char) : Option IRNode :=
  match (ns.filter (fun n => (cidStr n.id).data = k)).maximum with
  | ⊥ => none
  | (n : IRNode) => some n

/-- Modelled from the spec: the merged fact for one edge identity group is
the maximum under the tie-break order (higher `confidence` first, then
`loc` presence). -/
def edge_group_best (es : List IREdge) (k : List Char ×ₗ List Char ×ₗ List Char) :
    Option IREdge :=
  match (es.filter (fun e => edgeIdKey e = k)).maximum with
  | ⊥ => none
  | (e : IREdge) => some e

/-- Modelled from the spec: union all input nodes, deduplicate by
canonical-id string keeping the most informative fact per id, and sort the
result by canonical id. -/
def mergeNodes (ns : List IRNode) : List IRNode :=
  (dedupFirst ((ns.map (fun n => (cidStr n.id).data)).insertionSort (· ≤ ·))).filterMap
    (node_group_best ns)

/-- Modelled from the spec: union all input edges, deduplicate by
`(src, dst, dep_type)` keeping the most informative fact per identity, and
sort the result by `(src, dst, dep_type)`. -/
def mergeEdges (es : List IREdge) : List IREdge :=
  (dedupFirst ((es.map edgeIdKey).insertionSort (· ≤ ·))).filterMap
    (edge_group_best es)

/-- Modelled from the spec: `DefaultIRMerger.merge` (archguard/ir/merge.py is
absent from the source tree) — one canonical, deduplicated, deterministically
ordered IR from the raw producer outputs.  The envelope fields follow
`ArchitectureIR.empty`; the `repo_root` is taken from the first input. -/
def merge (irs : List ArchitectureIR) : ArchitectureIR :=
  { schema_version := 1
    produced_by := "archguard-core"
    repo_root := ((irs.head?).map (·.repo_root)).getD ""
    nodes := mergeNodes (irs.flatMap (·.nodes))
    edges := mergeEdges (irs.flatMap (·.edges))
    metadata := [] }

/-- core/engine.py line 150:
`combined_ir = self.ir_merger.merge(raw_irs) if raw_irs else
ArchitectureIR.empty(cfg.repo_root)`. -/
def engine_combined_ir (repo_root : String) (raw_irs : List ArchitectureIR) :
    ArchitectureIR :=
  if raw_irs.isEmpty then ArchitectureIR.empty repo_root else merge raw_irs

-- Rule-DSL parsing (archguard/rules/parser.py `DslRulesParserV0`).

/-- A value in the structure built by the v0 indentation parser: a scalar is
a string; `key:` introduces a nested mapping (a Python dict: unique keys,
insertion order) or a list. -/
inductive PVal
  | str (s : String)
  | map (entries : List (String × PVal))
  | list (items : List PVal)

/-- archguard/rules/errors.py `RulesParseError`, carrying the message and
file name, the two fields `_parse_when_predicate` and `_parse_pred_item`
populate. -/
structure ParseErr where
  message : String
  file : String
  deriving DecidableEq, Repr

/-- Python dict lookup `d.get(k)` on a mapping value (keys are unique, so
the first match is the binding). -/
def pget (es : List (String × PVal)) (k : String) : Option PVal :=
  (es.find? (fun p => p.1 = k)).map (·.2)

/-- Python iteration `for x in v`: a list yields its items, a string its
characters as one-character strings, a dict its keys. -/
def iterElems : PVal → List PVal
  | .list l => l
  | .str s => s.data.map (fun c => .str ⟨[c]⟩)
  | .map es => es.map (fun p => .str p.1)

/-- Python `repr` of a parsed value as it appears inside containers
(strings single-quoted; quote-escaping inside the string is not modelled,
as no embedded rule text contains quotes). -/
def reprQ : PVal → String
  | .str s => "'" ++ s ++ "'"
  | .list l =>
    "[" ++ String.intercalate ", " (l.attach.map (fun x => reprQ x.1)) ++ "]"
  | .map es =>
    "\x7b" ++
      String.intercalate ", "
        (es.attach.map (fun p => "'" ++ p.1.1 ++ "': " ++ reprQ p.1.2)) ++
      "\x7d"
  decreasing_by
  · have := List.sizeOf_lt_of_mem x.2
    simp_all
    omega
  · obtain ⟨⟨a, b⟩, hp⟩ := p
    have := List.sizeOf_lt_of_mem hp
    simp_all
    omega

/-- Modelled from the spec: the literal node of the rule AST
(archguard/rules/ast.py `LiteralAst` is absent from the source tree); per
the tests it carries a `kind` string and the parsed value. -/
inductive LitVal
  | null
  | str (s : String)
  | listv (items : List PVal)

/-- A literal with its `kind` tag (`"null"`, `"string"`, `"list"`; the
source's bool/number branches are unreachable from the v0 DSL, whose parsed
structures hold only strings, lists and dicts). -/
structure LiteralAst where
  kind : String
  value : LitVal

/-- Modelled from the spec: the boolean-expression AST
(archguard/rules/ast.py is absent); spec §3 defines the tagged variants
`And{items}`, `Or{items}`, `Not{item}`, `Compare{field, op, literal}`. -/
inductive ExprAst
  | andA (items : List ExprAst)
  | orA (items : List ExprAst)
  | notA (item : ExprAst)
  | compare (path : String) (op : String) (lit : LiteralAst)

/-- The `"[a,b,c]"` list-shorthand/string branch of `_parse_literal`,
applied to the result of Python `str(value)` (`s.startswith("[") and
s.endswith("]")`, then `s[1:-1]` split on commas — splits that keep empty
pieces — with each piece stripped). -/
def parse_literal_str (s0 : String) : LiteralAst :=
  let s := pyStrip s0
  if s.data.head? = some '[' ∧ s.data.getLast? = some ']' then
    let inner := pyStrip ⟨(s.data.drop 1).dropLast⟩
    if inner = "" then ⟨"list", .listv []⟩
    else ⟨"list", .listv ((inner.data.splitOn ',').map
      (fun p => .str (pyStrip ⟨p⟩)))⟩
  else ⟨"string", .str s⟩

/-- parser.py `_parse_literal`: `None` becomes the null literal, a list
becomes a list literal, and a string is parsed with the `[a,b,c]` list
shorthand; a dict value falls into the string branch via Python `str()`
(the bool/number branches are unreachable: the v0 structures hold only
strings, lists and dicts). -/
def parse_literal : Option PVal → LiteralAst
  | none => ⟨"null", .null⟩
  | some (.list l) => ⟨"list", .listv l⟩
  | some (.str s0) => parse_literal_str s0
  | some (.map es) => parse_literal_str (reprQ (.map es))

/-- Python `str.split()` (no separator): maximal runs of non-whitespace. -/
def pySplitWS (s : String) : List String :=
  ((s.data.splitOnP isPySpace).filter (· ≠ [])).map (fun l => (⟨l⟩ : String))

/-- parser.py `_parse_inline_compare`: `"<field> <op> <value>"`, at least
three whitespace-separated tokens. -/
def parse_inline_compare (filename : String) (text : String) :
    Except ParseErr ExprAst :=
  match pySplitWS (pyStrip text) with
  | f :: op :: v :: vs =>
    .ok (.compare f op (parse_literal (some (.str (String.intercalate " " (v :: vs))))))
  | _ => .error ⟨"Invalid inline predicate: '" ++ text ++ "'", filename⟩

/-- parser.py `_parse_pred_item`: a mapping `{field, op, value}` or an
inline shorthand string; anything else is a parse error. -/
def parse_pred_item (filename : String) : PVal → Except ParseErr ExprAst
  | .map es =>
    match pget es "field" with
    | some (.str f) =>
      if pyStrip f = "" then
        .error ⟨"Predicate item missing non-empty 'field'", filename⟩
      else
        match (pget es "op").getD (.str "==") with
        | .str op =>
          if pyStrip op = "" then
            .error ⟨"Predicate item missing non-empty 'op'", filename⟩
          else
            .ok (.compare (pyStrip f) (pyStrip op) (parse_literal (pget es "value")))
        | _ => .error ⟨"Predicate item missing non-empty 'op'", filename⟩
    | _ => .error ⟨"Predicate item missing non-empty 'field'", filename⟩
  | .str s => parse_inline_compare filename s
  | .list l =>
    .error ⟨"Unsupported predicate item: " ++ reprQ (.list l), filename⟩

/-- parser.py `_parse_when_predicate`: requires a mapping and dispatches on
the keys `all`, `any`, `not` in that order (`all` over its items as AND,
`any` as OR, `not` over its single item as NOT); only when none of the
three keys is present does it raise the "must contain" error. -/
def parse_when_predicate (filename : String) (w : PVal) :
    Except ParseErr ExprAst :=
  match w with
  | .map es =>
    match pget es "all" with
    | some v => ((iterElems v).mapM (parse_pred_item filename)).map .andA
    | none =>
      match pget es "any" with
      | some v => ((iterElems v).mapM (parse_pred_item filename)).map .orA
      | none =>
        match pget es "not" with
        | some v => (parse_pred_item filename v).map .notA
        | none => .error ⟨"when: must contain one of: all, any, not", filename⟩
  | _ => .error ⟨"'when' must be a mapping", filename⟩

-- Rule-block splitting (parser.py `_split_rule_blocks`).  Its input is
-- `text.splitlines()` with the (no-op) per-line `rstrip("\n")`; the model
-- takes the line list itself.

/-- A line that is blank for block-splitting purposes (`not ln.strip()`). -/
def blankLn (ln : String) : Bool := pyStrip ln = ""

/-- The accumulation loop of `_split_rule_blocks`: group consecutive
non-blank lines, flushing at blank lines and at the end (a flush keeps the
group only when some line is non-blank). -/
def split_blocks_loop : List String → List String → List (List String)
  | [], cur => if cur.any (fun ln => !blankLn ln) then [cur] else []
  | ln :: rest, cur =>
    if blankLn ln then
      (if cur.any (fun l2 => !blankLn l2) then [cur] else []) ++
        split_blocks_loop rest []
    else split_blocks_loop rest (cur ++ [ln])

/-- Source `next((ln for ln in b if ln.strip()), "")`: the first non-blank line. -/
def first_nonblank (b : List String) : String :=
  (b.find? (fun ln => !blankLn ln)).getD ""

/-- parser.py `_split_rule_blocks`: keep only the blocks whose first
non-blank line strips to exactly `"rule:"`, re-joined with newlines. -/
def split_rule_blocks (lines : List String) : List String :=
  let blocks := split_blocks_loop lines []
  (blocks.filter (fun b => pyStrip (first_nonblank b) = "rule:")).map
    (fun b => String.intercalate "\n" b)

/-- The blank-line-separated blocks of a line sequence, written directly:
each maximal run of consecutive non-blank lines. -/
def chunksRef (l : List String) : List (List String) :=
  match l with
  | [] => []
  | ln :: rest =>
    if blankLn ln then chunksRef rest
    else (ln :: rest.takeWhile (fun x => !blankLn x)) ::
      chunksRef (rest.dropWhile (fun x => !blankLn x))
  termination_by l.length
  decreasing_by
  · simp
  · simpa using Nat.lt_succ_of_le ((List.dropWhile_sublist _).length_le)

-- Injectivity of the canonical JSON payload texts: a decoder for the
-- escaped string segments, shown to invert `jsonEscape`.

/-- Decode one escaped character from the front of a JSON string body
(`none` on a closing quote or malformed input). -/
def decodeFirst : List Char → Option (Char × List Char)
  | [] => none
  | c :: rest =>
    if c = '\\' then
      match rest with
      | [] => none
      | d :: rest2 =>
        if d = '\\' then some ('\\', rest2)
        else if d = '"' then some ('"', rest2)
        else if d = 'b' then some ('\x08', rest2)
        else if d = 'f' then some ('\x0c', rest2)
        else if d = 'n' then some ('\n', rest2)
        else if d = 'r' then some ('\r', rest2)
        else if d = 't' then some ('\t', rest2)
        else if d = 'u' then
          match rest2 with
          | z1 :: z2 :: h1 :: h2 :: rest3 =>
            if z1 = '0' ∧ z2 = '0' then
              some (Char.ofNat (16 * hexVal h1 + hexVal h2), rest3)
            else none
          | _ => none
        else none
    else if c = '"' then none
    else some (c, rest)

/-- Decode an escaped string body up to its closing quote, fuelled by the
number of characters still to decode. -/
def decodeStrAux : Nat → List Char → Option (List Char × List Char)
  | _, [] => none
  | fuel, c :: rest =>
    if c = '"' then some ([], rest)
    else
      match fuel with
      | 0 => none
      | fuel' + 1 =>
        match decodeFirst (c :: rest) with
        | none => none
        | some (d, rest2) =>
          match decodeStrAux fuel' rest2 with
          | none => none
          | some (xs, r) => some (d :: xs, r)

/-- Function `hexVal` inverts `hexDigit` on digit values. -/
theorem hexVal_hexDigit : ∀ n : Nat, n < 16 → hexVal (hexDigit n) = n := by
  intro n h
  interval_cases n <;> rfl

/-- The escape of a character is nonempty and never starts with a quote. -/
theorem escC_cons : ∀ c : Char, ∃ h t, escC c = h :: t ∧ h ≠ '"' := by
  intro c
  unfold escC
  split_ifs with h1 h2 h3 h4 h5 h6 h7 h8
  · exact ⟨_, _, rfl, by decide⟩
  · exact ⟨_, _, rfl, by decide⟩
  · exact ⟨_, _, rfl, by decide⟩
  · exact ⟨_, _, rfl, by decide⟩
  · exact ⟨_, _, rfl, by decide⟩
  · exact ⟨_, _, rfl, by decide⟩
  · exact ⟨_, _, rfl, by decide⟩
  · exact ⟨_, _, rfl, by decide⟩
  · exact ⟨c, [], rfl, h2⟩

/-- Function `decodeFirst` inverts `escC` at the front of any continuation. -/
theorem decodeFirst_escC :
    ∀ (c : Char) (t : List Char), decodeFirst (escC c ++ t) = some (c, t) := by
  intro c t
  unfold escC
  split_ifs with h1 h2 h3 h4 h5 h6 h7 h8
  · subst h1; rfl
  · subst h2; rfl
  · subst h3; rfl
  · subst h4; rfl
  · subst h5; rfl
  · subst h6; rfl
  · subst h7; rfl
  · show decodeFirst
      ('\\' :: 'u' :: '0' :: '0' :: hexDigit (c.toNat / 16) ::
        hexDigit (c.toNat % 16) :: t) = some (c, t)
    have hdiv : c.toNat / 16 < 16 := by omega
    have hmod : c.toNat % 16 < 16 := Nat.mod_lt _ (by norm_num)
    have hred : decodeFirst
        ('\\' :: 'u' :: '0' :: '0' :: hexDigit (c.toNat / 16) ::
          hexDigit (c.toNat % 16) :: t) =
        some (Char.ofNat (16 * hexVal (hexDigit (c.toNat / 16)) +
          hexVal (hexDigit (c.toNat % 16))), t) := rfl
    rw [hred, hexVal_hexDigit _ hdiv, hexVal_hexDigit _ hmod, Nat.div_add_mod,
      Char.ofNat_toNat]
  · simp [decodeFirst, h1, h2]

/-- Function `decodeStrAux` inverts `jsonEscape` given enough fuel. -/
theorem decodeStrAux_jsonEscape :
    ∀ (xs : List Char) (fuel : Nat) (t : List Char), xs.length ≤ fuel →
      decodeStrAux fuel (jsonEscape xs ++ '"' :: t) = some (xs, t) := by
  intro xs
  induction xs with
  | nil =>
    intro fuel t _
    cases fuel <;> rfl
  | cons x xs ih =>
    intro fuel t hlen
    obtain ⟨h1, hs, hE, hq⟩ := escC_cons x
    cases fuel with
    | zero => simp at hlen
    | succ fuel' =>
      have hshape : jsonEscape (x :: xs) ++ '"' :: t =
          h1 :: (hs ++ (jsonEscape xs ++ '"' :: t)) := by
        simp [jsonEscape, hE]
      rw [hshape]
      have hback : h1 :: (hs ++ (jsonEscape xs ++ '"' :: t)) =
          escC x ++ (jsonEscape xs ++ '"' :: t) := by
        simp [hE]
      simp only [decodeStrAux, if_neg hq, hback, decodeFirst_escC,
        ih fuel' t (by simp only [List.length_cons] at hlen; omega)]

/-- Splitting a quoted, escaped JSON string literal off the front of a
character sequence is unambiguous. -/
theorem qstr_split : ∀ {a b : String} {r1 r2 : List Char},
    qstr a ++ r1 = qstr b ++ r2 → a = b ∧ r1 = r2 := by
  intro a b r1 r2 h
  have h' : jsonEscape a.data ++ '"' :: r1 = jsonEscape b.data ++ '"' :: r2 := by
    simpa [qstr] using h
  have d1 := decodeStrAux_jsonEscape a.data (a.data.length + b.data.length) r1
    (by omega)
  have d2 := decodeStrAux_jsonEscape b.data (a.data.length + b.data.length) r2
    (by omega)
  rw [h', d2] at d1
  obtain ⟨hd, hr⟩ := Prod.ext_iff.mp (Option.some.inj d1)
  exact ⟨(str_data_inj hd).symm, hr.symm⟩

/-- Splitting a string-or-null JSON value off the front of a character
sequence is unambiguous. -/
theorem jopt_split : ∀ {o1 o2 : Option String} {r1 r2 : List Char},
    jopt o1 ++ r1 = jopt o2 ++ r2 → o1 = o2 ∧ r1 = r2 := by
  intro o1 o2 r1 r2 h
  cases o1 with
  | none =>
    cases o2 with
    | none => exact ⟨rfl, List.append_cancel_left h⟩
    | some s =>
      rw [show jopt none = 'n' :: ['u', 'l', 'l'] from rfl,
        show jopt (some s) = '"' :: (jsonEscape s.data ++ ['"']) from rfl] at h
      simp at h
  | some s =>
    cases o2 with
    | none =>
      rw [show jopt none = 'n' :: ['u', 'l', 'l'] from rfl,
        show jopt (some s) = '"' :: (jsonEscape s.data ++ ['"']) from rfl] at h
      simp at h
    | some s2 =>
      have := qstr_split (a := s) (b := s2) (by simpa [jopt] using h)
      exact ⟨by rw [this.1], this.2⟩

/-- The dependency key payload text determines the rule id and the
`(dep_type, src_id, dst_id)` identity. -/
theorem dep_key_payload_inj : ∀ {r1 r2 : String} {a1 b1 c1 a2 b2 c2 : Option String},
    dep_key_payload r1 a1 b1 c1 = dep_key_payload r2 a2 b2 c2 →
    r1 = r2 ∧ a1 = a2 ∧ b1 = b2 ∧ c1 = c2 := by
  intro r1 r2 a1 b1 c1 a2 b2 c2 h
  unfold dep_key_payload at h
  have h0 : "\x7b\"dep_type\":".data ++
      (jopt a1 ++ (",\"dst_id\":".data ++ (jopt c1 ++ (",\"rule\":".data ++
      (qstr r1 ++ (",\"src_id\":".data ++ (jopt b1 ++
      ",\"target\":\"dependency\"\x7d".data))))))) =
      "\x7b\"dep_type\":".data ++
      (jopt a2 ++ (",\"dst_id\":".data ++ (jopt c2 ++ (",\"rule\":".data ++
      (qstr r2 ++ (",\"src_id\":".data ++ (jopt b2 ++
      ",\"target\":\"dependency\"\x7d".data))))))) := by
    have := congrArg String.data h
    simpa using this
  have h1 := List.append_cancel_left h0
  obtain ⟨hdt, h2⟩ := jopt_split h1
  have h3 := List.append_cancel_left h2
  obtain ⟨hdst, h4⟩ := jopt_split h3
  have h5 := List.append_cancel_left h4
  obtain ⟨hrule, h6⟩ := qstr_split h5
  have h7 := List.append_cancel_left h6
  obtain ⟨hsrc, _⟩ := jopt_split h7
  exact ⟨hrule, hdt, hsrc, hdst⟩

/-- The node key payload text determines the rule id and the node id. -/
theorem node_key_payload_inj : ∀ {r1 r2 : String} {n1 n2 : Option String},
    node_key_payload r1 n1 = node_key_payload r2 n2 → r1 = r2 ∧ n1 = n2 := by
  intro r1 r2 n1 n2 h
  unfold node_key_payload at h
  have h0 : "\x7b\"node_id\":".data ++
      (jopt n1 ++ (",\"rule\":".data ++ (qstr r1 ++
      ",\"target\":\"node\"\x7d".data))) =
      "\x7b\"node_id\":".data ++
      (jopt n2 ++ (",\"rule\":".data ++ (qstr r2 ++
      ",\"target\":\"node\"\x7d".data))) := by
    have := congrArg String.data h
    simpa using this
  have h1 := List.append_cancel_left h0
  obtain ⟨hn, h2⟩ := jopt_split h1
  have h3 := List.append_cancel_left h2
  obtain ⟨hrule, _⟩ := qstr_split h3
  exact ⟨hrule, hn⟩

/-- C3: for violations with the same rule id and the same subject identity
((dep_type, src_id, dst_id) for a dependency violation, node_id for a node
violation), `key_for` returns identical keys even when message, suggestion
or location differ; and keys differ whenever the rule id or any identity
component differs. -/
theorem violation_key_identity (v w : Violation) :
    (∀ dt si di sf df sc sl sx dc dl dx dt2 si2 di2 sf2 df2 sc2 sl2 sx2 dc2 dl2 dx2,
      v.details = .dep dt si di sf df sc sl sx dc dl dx →
      w.details = .dep dt2 si2 di2 sf2 df2 sc2 sl2 sx2 dc2 dl2 dx2 →
      (key_for v = key_for w ↔
        (v.rule_id = w.rule_id ∧ dt = dt2 ∧ si = si2 ∧ di = di2))) ∧
    (∀ ni fq kd pa co la cx ni2 fq2 kd2 pa2 co2 la2 cx2,
      v.details = .node ni fq kd pa co la cx →
      w.details = .node ni2 fq2 kd2 pa2 co2 la2 cx2 →
      (key_for v = key_for w ↔ (v.rule_id = w.rule_id ∧ ni = ni2))) := by
  constructor
  · intro dt si di sf df sc sl sx dc dl dx dt2 si2 di2 sf2 df2 sc2 sl2 sx2 dc2 dl2 dx2 hv hw
    rw [show key_for v = dep_key_payload v.rule_id (some dt) (some si) (some di) by
        rw [key_for, hv],
      show key_for w = dep_key_payload w.rule_id (some dt2) (some si2) (some di2) by
        rw [key_for, hw]]
    constructor
    · intro h
      obtain ⟨h1, h2, h3, h4⟩ := dep_key_payload_inj h
      exact ⟨h1, Option.some.inj h2, Option.some.inj h3, Option.some.inj h4⟩
    · rintro ⟨h1, h2, h3, h4⟩
      rw [h1, h2, h3, h4]
  · intro ni fq kd pa co la cx ni2 fq2 kd2 pa2 co2 la2 cx2 hv hw
    rw [show key_for v = node_key_payload v.rule_id (some ni) by rw [key_for, hv],
      show key_for w = node_key_payload w.rule_id (some ni2) by rw [key_for, hw]]
    constructor
    · intro h
      obtain ⟨h1, h2⟩ := node_key_payload_inj h
      exact ⟨h1, Option.some.inj h2⟩
    · rintro ⟨h1, h2⟩
      rw [h1, h2]

-- Concrete violations used by the baseline-key witness: the same logical
-- dependency violation with different wording/location, and one with a
-- different `dst_id`.

/-- A concrete dependency violation. -/
def wViolA : Violation :=
  { rule_id := "no-domain-to-infra"
    rule_name := "No domain to infra"
    severity := .error
    message := some "bad dep"
    location := some { file := "a.py", line := 3 }
    details := .dep "import" "python://repo::a" "python://repo::b"
      "a" "b" none (some "domain") none none (some "infra") none }

/-- The same logical violation as `wViolA` with different message,
suggestion and location. -/
def wViolA2 : Violation :=
  { rule_id := "no-domain-to-infra"
    rule_name := "No domain to infra"
    severity := .error
    message := some "reworded message"
    location := some { file := "a.py", line := 99 }
    suggestion := some "move it"
    details := .dep "import" "python://repo::a" "python://repo::b"
      "a" "b" none (some "domain") none none (some "infra") none }

/-- Like `wViolA` but with a different `dst_id`. -/
def wViolB : Violation :=
  { rule_id := "no-domain-to-infra"
    rule_name := "No domain to infra"
    severity := .error
    message := some "bad dep"
    location := some { file := "a.py", line := 3 }
    details := .dep "import" "python://repo::a" "python://repo::c"
      "a" "c" none (some "domain") none none (some "domain") none }

/-- C3 witness: identical keys for `wViolA`/`wViolA2` (only wording and
location differ), distinct keys for `wViolA`/`wViolB` (different dst). -/
theorem violation_key_identity_witness :
    key_for wViolA = key_for wViolA2 ∧ key_for wViolA ≠ key_for wViolB := by
  constructor
  · exact ((violation_key_identity wViolA wViolA2).1 _ _ _ _ _ _ _ _ _ _ _ _ _ _
      _ _ _ _ _ _ _ _ rfl rfl).mpr ⟨rfl, rfl, rfl, rfl⟩
  · intro h
    have := ((violation_key_identity wViolA wViolB).1 _ _ _ _ _ _ _ _ _ _ _ _ _ _
      _ _ _ _ _ _ _ _ rfl rfl).mp h
    exact absurd this.2.2.2 (by decide)

/-- C1: for a FORBID rule, evaluation over either target emits exactly one
violation per surviving element, in element order and referencing that
element's identity (the node id, or `(dep_type, src_id, dst_id)` for an
edge), and nothing else. -/
theorem forbid_semantics (r : Rule) (idx : IRIndex)
    (hact : r.action = .forbid) :
    eval_node_rule r idx = (node_survivors r idx).map (node_forbid_violation r) ∧
    eval_edge_rule r idx = (edge_survivors r idx).map (edge_forbid_violation r) ∧
    (∀ n : IRNode, (node_forbid_violation r n).rule_id = r.id ∧
      (node_forbid_violation r n).details =
        .node (cidStr n.id) n.id.fqname n.kind.value n.path n.container
          n.layer n.context) ∧
    (∀ e : IREdge, (edge_forbid_violation r e).rule_id = r.id ∧
      (edge_forbid_violation r e).details =
        .dep e.dep_type.value (cidStr e.src) (cidStr e.dst) e.src.fqname
          e.dst.fqname e.src_container e.src_layer e.src_context
          e.dst_container e.dst_layer e.dst_context) := by
  refine ⟨?_, ?_, fun n => ⟨rfl, rfl⟩, fun e => ⟨rfl, rfl⟩⟩
  · simp [eval_node_rule, hact]
  · simp [eval_edge_rule, hact]

/-- Modelled from the spec: the compiled predicate of the rule
`when: all[from.layer == domain, to.layer == infra]` (the rule compiler,
archguard/rules/compiler.py, is absent from the source tree; per spec §4.2
`from.layer`/`to.layer` read the edge's `src_layer`/`dst_layer`). -/
def domainInfraPred : RulePred
  | .edge e =>
    some (decide (e.src_layer = some "domain") &&
      decide (e.dst_layer = some "infra"))
  | .node _ => some false

/-- The spec's FORBID example rule. -/
def forbidRule : Rule :=
  { id := "no-domain-to-infra"
    name := "No domain to infra"
    severity := .error
    target := .dependency
    «when» := domainInfraPred
    action := .forbid }

/-- Edge A of the spec's FORBID example: domain -> infra. -/
def wEdgeA : IREdge :=
  { src := ⟨.python, "repo", "a"⟩
    dst := ⟨.python, "repo", "b"⟩
    dep_type := .imp
    src_layer := some "domain"
    dst_layer := some "infra" }

/-- Edge B of the spec's FORBID example: domain -> domain. -/
def wEdgeB : IREdge :=
  { src := ⟨.python, "repo", "a"⟩
    dst := ⟨.python, "repo", "c"⟩
    dep_type := .imp
    src_layer := some "domain"
    dst_layer := some "domain" }

/-- The two-edge index of the spec's FORBID example. -/
def forbidIdx : IRIndex := { nodes := [], edges := [wEdgeA, wEdgeB] }

/-- C1 witness: on the spec's example, exactly one violation is produced
and it references edge A's `(dep_type, src_id, dst_id)`. -/
theorem forbid_semantics_witness :
    forbidRule.action = .forbid ∧
    eval_edge_rule forbidRule forbidIdx =
      (edge_survivors forbidRule forbidIdx).map (edge_forbid_violation forbidRule) ∧
    edge_survivors forbidRule forbidIdx = [wEdgeA] ∧
    eval_edge_rule forbidRule forbidIdx =
      [edge_forbid_violation forbidRule wEdgeA] ∧
    (edge_forbid_violation forbidRule wEdgeA).details =
      .dep "import" "python://repo::a" "python://repo::b" "a" "b"
        none (some "domain") none none (some "infra") none := by
  refine ⟨rfl, (forbid_semantics forbidRule forbidIdx rfl).2.1, by decide, ?_, by decide⟩
  rw [(forbid_semantics forbidRule forbidIdx rfl).2.1]
  decide

/-- C2: for a REQUIRE rule, zero surviving elements yield exactly one
violation for the rule as a whole — no element reference (no location, a
bare require `details` entry) and, when the rule carries no message, the
default `"Required <target> pattern not found."` — while one or more
surviving elements yield zero violations. -/
theorem require_semantics (r : Rule) (idx : IRIndex)
    (hact : r.action = .require) :
    (eval_node_rule r idx =
      if node_survivors r idx = [] then [require_missing_violation r "node"]
      else []) ∧
    (eval_edge_rule r idx =
      if edge_survivors r idx = []
      then [require_missing_violation r "dependency"] else []) ∧
    (∀ t, (require_missing_violation r t).location = none ∧
      (require_missing_violation r t).details = .requireMissing t ∧
      (require_missing_violation r t).rule_id = r.id) ∧
    (r.message = none →
      (require_missing_violation r "node").message =
        some "Required node pattern not found." ∧
      (require_missing_violation r "dependency").message =
        some "Required dependency pattern not found.") := by
  refine ⟨?_, ?_, fun t => ⟨rfl, rfl, rfl⟩, fun hm => ?_⟩
  · by_cases h : node_survivors r idx = [] <;>
      simp [eval_node_rule, hact, h]
  · by_cases h : edge_survivors r idx = [] <;>
      simp [eval_edge_rule, hact, h]
  · constructor <;> simp [require_missing_violation, hm]

/-- The compiled predicate of the spec's REQUIRE example rule
`when: all[kind == interface]` (rule compiler spec-modelled as above). -/
def interfacePred : RulePred
  | .node n => some (decide (n.kind = .interface))
  | .edge _ => some false

/-- The spec's REQUIRE example rule. -/
def requireRule : Rule :=
  { id := "need-interface"
    name := "Interface required"
    severity := .error
    target := .node
    «when» := interfacePred
    action := .require }

/-- A module (non-interface) node. -/
def wModuleNode : IRNode := { id := ⟨.python, "repo", "m"⟩, kind := .module }

/-- An interface node. -/
def wInterfaceNode : IRNode :=
  { id := ⟨.python, "repo", "i"⟩, kind := .interface }

/-- An index with no interface node. -/
def requireIdxNone : IRIndex := { nodes := [wModuleNode], edges := [] }

/-- An index with one interface node. -/
def requireIdxOne : IRIndex :=
  { nodes := [wModuleNode, wInterfaceNode], edges := [] }

/-- C2 witness: the spec's REQUIRE example — one violation with the default
message against the interface-free IR, zero once an interface exists. -/
theorem require_semantics_witness :
    requireRule.action = .require ∧
    eval_node_rule requireRule requireIdxNone =
      [require_missing_violation requireRule "node"] ∧
    eval_node_rule requireRule requireIdxOne = [] ∧
    (require_missing_violation requireRule "node").message =
      some "Required node pattern not found." ∧
    (require_missing_violation requireRule "node").location = none := by
  refine ⟨rfl, ?_, ?_, rfl, rfl⟩
  · rw [(require_semantics requireRule requireIdxNone rfl).1]
    decide
  · rw [(require_semantics requireRule requireIdxOne rfl).1]
    decide

/-- Unfolding of the exception loop one predicate at a time. -/
theorem passes_exceptions_cons (x : RuleElem) (f : RulePred)
    (rest : List RulePred) :
    passes_exceptions x (f :: rest) =
      if f x = some true then false else passes_exceptions x rest := by
  rcases hf : f x with _ | b
  · simp [passes_exceptions, hf]
  · cases b <;> simp [passes_exceptions, hf]

/-- The exception loop only sees whether each predicate returns `True`
without raising. -/
theorem passes_exceptions_congr (x : RuleElem) (pre : List RulePred) :
    ∀ (post : List RulePred) (f g : RulePred),
      ((f x = some true) ↔ (g x = some true)) →
      passes_exceptions x (pre ++ f :: post) =
        passes_exceptions x (pre ++ g :: post) := by
  induction pre with
  | nil =>
    intro post f g hfg
    simp only [List.nil_append, passes_exceptions_cons]
    exact if_congr hfg rfl rfl
  | cons p pre ih =>
    intro post f g hfg
    simp only [List.cons_append, passes_exceptions_cons]
    rw [ih post f g hfg]

/-- C7: evaluation isolates per-element predicate failures — a rule whose
main predicate raises on one element evaluates exactly like the rule that
returns `False` there (the element is non-matching, all other elements
produce what they would anyway), and a raising exception predicate
evaluates exactly like one that does not exclude that element. -/
theorem predicate_isolation (r : Rule) (idx : IRIndex) (x0 : RuleElem) :
    (r.when x0 = none →
      ∀ w2 : RulePred, (∀ x, x ≠ x0 → w2 x = r.when x) → w2 x0 = some false →
        eval_node_rule { r with «when» := w2 } idx = eval_node_rule r idx ∧
        eval_edge_rule { r with «when» := w2 } idx = eval_edge_rule r idx) ∧
    (∀ pre ex post, r.except_when = pre ++ ex :: post → ex x0 = none →
      ∀ ex2 : RulePred, (∀ x, x ≠ x0 → ex2 x = ex x) → ex2 x0 = some false →
        eval_node_rule { r with except_when := pre ++ ex2 :: post } idx =
          eval_node_rule r idx ∧
        eval_edge_rule { r with except_when := pre ++ ex2 :: post } idx =
          eval_edge_rule r idx) := by
  constructor
  · intro hr w2 hagree hw0
    have hm : ∀ x, rule_matches { r with «when» := w2 } x = rule_matches r x := by
      intro x
      by_cases hx : x = x0
      · subst hx
        simp [rule_matches, hw0, hr]
      · simp [rule_matches, hagree x hx]
    have hsn : node_survivors { r with «when» := w2 } idx = node_survivors r idx := by
      unfold node_survivors
      congr 1
      funext n
      exact hm (.node n)
    have hse : edge_survivors { r with «when» := w2 } idx = edge_survivors r idx := by
      unfold edge_survivors
      congr 1
      funext e
      exact hm (.edge e)
    constructor
    · unfold eval_node_rule
      rw [hsn]
      rfl
    · unfold eval_edge_rule
      rw [hse]
      rfl
  · intro pre ex post hexc hex0 ex2 hagree hx0
    have hiff : ∀ x, ((ex2 x = some true) ↔ (ex x = some true)) := by
      intro x
      by_cases hx : x = x0
      · subst hx
        rw [hex0, hx0]
        simp
      · rw [hagree x hx]
    have hm : ∀ x,
        rule_matches { r with except_when := pre ++ ex2 :: post } x =
          rule_matches r x := by
      intro x
      rcases hw : r.when x with _ | b
      · simp [rule_matches, hw]
      · cases b
        · simp [rule_matches, hw]
        · simp only [rule_matches, hw]
          rw [hexc]
          exact passes_exceptions_congr x pre post ex2 ex (hiff x)
    have hsn : node_survivors { r with except_when := pre ++ ex2 :: post } idx =
        node_survivors r idx := by
      unfold node_survivors
      congr 1
      funext n
      exact hm (.node n)
    have hse : edge_survivors { r with except_when := pre ++ ex2 :: post } idx =
        edge_survivors r idx := by
      unfold edge_survivors
      congr 1
      funext e
      exact hm (.edge e)
    constructor
    · unfold eval_node_rule
      rw [hsn]
      rfl
    · unfold eval_edge_rule
      rw [hse]
      rfl

/-- A node the isolation-witness predicate raises on. -/
def wBadNode : IRNode := { id := ⟨.python, "repo", "bad"⟩, kind := .module }

/-- A node the isolation-witness predicate accepts. -/
def wGoodNode : IRNode := { id := ⟨.python, "repo", "good"⟩, kind := .module }

/-- A predicate that raises on `wBadNode` and matches every other node. -/
def raisingPred : RulePred
  | .node n => if n = wBadNode then none else some true
  | .edge _ => some false

/-- A FORBID node rule built on `raisingPred`. -/
def isolateRule : Rule :=
  { id := "iso"
    name := "Isolation"
    severity := .error
    target := .node
    «when» := raisingPred
    action := .forbid }

/-- The two-node index of the isolation witness. -/
def isolateIdx : IRIndex := { nodes := [wBadNode, wGoodNode], edges := [] }

/-- Predicate `raisingPred` patched to plain non-matching at the raising element. -/
def patchedPred : RulePred :=
  fun x => if x = .node wBadNode then some false else raisingPred x

/-- C7 witness: with the predicate raising on one node, evaluation equals
the patched rule's evaluation and still reports the other node. -/
theorem predicate_isolation_witness :
    raisingPred (.node wBadNode) = none ∧
    eval_node_rule { isolateRule with «when» := patchedPred } isolateIdx =
      eval_node_rule isolateRule isolateIdx ∧
    eval_node_rule isolateRule isolateIdx =
      [node_forbid_violation isolateRule wGoodNode] := by
  refine ⟨rfl, ?_, by decide⟩
  exact ((predicate_isolation isolateRule isolateIdx (.node wBadNode)).1 rfl
    patchedPred (fun x hx => if_neg hx) (if_pos rfl)).1

/-- A string containing a non-whitespace character does not strip to
empty. -/
theorem strip_ne_of_mem {s : String} {c : Char} (hc : c ∈ s.data)
    (hw : isPySpace c = false) : pyStrip s ≠ "" := by
  intro h
  have hdata :
      ((s.data.dropWhile isPySpace).reverse.dropWhile isPySpace).reverse = [] := by
    have := congrArg String.data h
    simpa [pyStrip] using this
  rw [List.reverse_eq_nil_iff] at hdata
  have hall := List.dropWhile_eq_nil_iff.mp hdata
  have hsplit : c ∈ s.data.takeWhile isPySpace ++ s.data.dropWhile isPySpace := by
    rw [List.takeWhile_append_dropWhile]
    exact hc
  have hmem : c ∈ s.data.dropWhile isPySpace := by
    rcases List.mem_append.mp hsplit with h1 | h2
    · have := List.mem_takeWhile_imp h1
      simp [hw] at this
    · exact h2
  have := hall c (List.mem_reverse.mpr hmem)
  simp [hw] at this

/-- The character data of a canonical id string, split at its literal
separators. -/
theorem cidStr_data (i : CanonicalId) :
    (cidStr i).data = i.language.value.data ++
      ([':', '/', '/'] ++ (i.code_root.data ++ ([':', ':'] ++ i.fqname.data))) := by
  simp [cidStr, String.data_append]

/-- A canonical id string never strips to the empty string. -/
theorem cid_strip_ne (i : CanonicalId) : pyStrip (cidStr i) ≠ "" := by
  refine strip_ne_of_mem (c := ':') ?_ (by decide)
  rw [cidStr_data]
  simp

/-- Every error emitted by the node-uniqueness loop is a duplicate-id
error: the empty-id branch is unreachable. -/
theorem node_checks_message : ∀ (ns : List IRNode) (seen : List String),
    ∀ e ∈ (node_checks ns seen).1, e.message = "Duplicate IR node id detected" := by
  intro ns
  induction ns with
  | nil =>
    intro seen e he
    simp [node_checks] at he
  | cons n rest ih =>
    intro seen e he
    rw [node_checks, if_neg (cid_strip_ne n.id)] at he
    by_cases hms : cidStr n.id ∈ seen
    · simp only [if_pos hms] at he
      rcases List.mem_cons.mp he with h1 | h2
      · rw [h1]
      · exact ih seen e h2
    · simp only [if_neg hms] at he
      exact ih (cidStr n.id :: seen) e he

/-- Every error emitted by the per-edge checks is a confidence-range or
strict-references error: the empty-endpoint branch is unreachable. -/
theorem edge_checks_message :
    ∀ (opts : IRValidationOptions) (ids : List String) (e : IREdge),
      ∀ err ∈ edge_checks opts ids e,
        err.message = "Edge confidence must be within [0,1]" ∨
        err.message = "Edge references missing node(s) (strict mode)" := by
  intro opts ids e err h
  unfold edge_checks at h
  have hne : ¬ (pyStrip (cidStr e.src) = "" ∨ pyStrip (cidStr e.dst) = "") := by
    rintro (h' | h')
    · exact cid_strip_ne e.src h'
    · exact cid_strip_ne e.dst h'
  rw [if_neg hne] at h
  rcases List.mem_append.mp h with h1 | h2
  · by_cases hc : ¬ (0 ≤ e.confidence ∧ e.confidence ≤ 1)
    · rw [if_pos hc] at h1
      simp at h1
      left
      rw [h1]
    · rw [if_neg hc] at h1
      simp at h1
  · by_cases hs : opts.strict_references = true
    · rw [if_pos hs] at h2
      by_cases hm : ¬ (cidStr e.src ∈ ids) ∨ ¬ (cidStr e.dst ∈ ids)
      · rw [if_pos hm] at h2
        simp at h2
        right
        rw [h2]
      · rw [if_neg hm] at h2
        simp at h2
    · rw [if_neg hs] at h2
      simp at h2

/-- C10: every canonical id string form contains the separators `://` and
`::` and never strips to empty; consequently `validate_ir` can never emit
the "IR node has empty canonical id" or "Edge has empty src or dst
canonical id" errors — those branches are unreachable. -/
theorem canonical_id_errors_unreachable :
    (∀ i : CanonicalId,
      "://".data <:+: (cidStr i).data ∧
      "::".data <:+: (cidStr i).data ∧
      pyStrip (cidStr i) ≠ "") ∧
    (∀ (ir : ArchitectureIR) (opts? : Option IRValidationOptions),
      ∀ e ∈ validate_ir ir opts?,
        e.message ≠ "IR node has empty canonical id" ∧
        e.message ≠ "Edge has empty src or dst canonical id") := by
  constructor
  · intro i
    refine ⟨⟨i.language.value.data,
        i.code_root.data ++ ([':', ':'] ++ i.fqname.data), ?_⟩,
      ⟨i.language.value.data ++ ([':', '/', '/'] ++ i.code_root.data),
        i.fqname.data, ?_⟩, cid_strip_ne i⟩
    · rw [cidStr_data]
      simp
    · rw [cidStr_data]
      simp
  · intro ir opts? e he
    unfold validate_ir at he
    simp only [List.append_assoc, List.mem_append] at he
    rcases he with h1 | h2 | h3 | h4 | h5
    · split_ifs at h1 with hs
      · simp at h1
        subst h1
        constructor
        · intro h
          have h2c : (some 'n' : Option Char) = some 'R' :=
            congrArg (fun s => s.data[1]?) h
          simp at h2c
        · intro h
          have h2c : (some 'n' : Option Char) = some 'd' :=
            congrArg (fun s => s.data[1]?) h
          simp at h2c
      · simp at h1
    · rcases hmn : (opts?.getD {}).max_nodes with _ | m <;>
        rw [hmn] at h2
      · simp at h2
      · simp only [List.mem_ite_nil_right, List.mem_singleton] at h2
        obtain ⟨-, h2e⟩ := h2
        subst h2e
        exact ⟨by simp, by simp⟩
    · rcases hme : (opts?.getD {}).max_edges with _ | m <;>
        rw [hme] at h3
      · simp at h3
      · simp only [List.mem_ite_nil_right, List.mem_singleton] at h3
        obtain ⟨-, h3e⟩ := h3
        subst h3e
        exact ⟨by simp, by simp⟩
    · have := node_checks_message ir.nodes [] e h4
      rw [this]
      exact ⟨by decide, by decide⟩
    · obtain ⟨edge, _, hmem⟩ := List.mem_flatMap.mp h5
      rcases edge_checks_message (opts?.getD {}) (node_checks ir.nodes []).2
          edge e hmem with h | h <;> rw [h]
      · exact ⟨by decide, by decide⟩
      · exact ⟨by decide, by decide⟩

/-- An IR whose only defect is a non-positive schema version. -/
def c10IR : ArchitectureIR :=
  { schema_version := 0
    produced_by := "test"
    repo_root := "/r"
    nodes := []
    edges := [] }

/-- The error `validate_ir` reports for `c10IR`. -/
def c10Err : EngineError :=
  { type := "runtime_error"
    message := "Invalid IR schema_version: 0"
    location := none
    details := [("schema_version", DVal.i 0)] }

/-- C10 witness: a concrete emitted error, which is indeed neither of the
unreachable empty-id errors. -/
theorem canonical_id_errors_unreachable_witness :
    c10Err ∈ validate_ir c10IR none ∧
    c10Err.message ≠ "IR node has empty canonical id" ∧
    c10Err.message ≠ "Edge has empty src or dst canonical id" := by
  refine ⟨by decide, ?_, ?_⟩
  · exact ((canonical_id_errors_unreachable).2 c10IR none c10Err (by decide)).1
  · exact ((canonical_id_errors_unreachable).2 c10IR none c10Err (by decide)).2

/-- An edge with out-of-range confidence 1.7 and no other defect. -/
def c6Edge : IREdge :=
  { src := ⟨.python, "repo", "a"⟩
    dst := ⟨.python, "repo", "b"⟩
    dep_type := .imp
    confidence := 1.7 }

/-- An IR whose only defect is `c6Edge`'s confidence. -/
def c6IR : ArchitectureIR :=
  { schema_version := 1
    produced_by := "test"
    repo_root := "/r"
    nodes := []
    edges := [c6Edge] }

/-- C6: `validate_ir` is a total function of the IR (it cannot raise and
returns only an error list, leaving the IR value untouched); on an IR whose
single edge has confidence 1.7 it returns exactly one `EngineError`, about
that edge's confidence being outside [0,1]. -/
theorem validate_ir_confidence_nonfatal :
    validate_ir c6IR none =
      [{ type := "runtime_error"
         message := "Edge confidence must be within [0,1]"
         location := none
         details := [("confidence", DVal.q 1.7),
                     ("src", DVal.s "python://repo::a"),
                     ("dst", DVal.s "python://repo::b"),
                     ("dep_type", DVal.s "import")] }] := by
  have hconf : ¬ (0 ≤ (1.7 : Rat) ∧ (1.7 : Rat) ≤ 1) := by norm_num
  have hs : pyStrip (cidStr c6Edge.src) ≠ "" := cid_strip_ne _
  have hd : pyStrip (cidStr c6Edge.dst) ≠ "" := cid_strip_ne _
  show validate_ir c6IR none = _
  unfold validate_ir
  rw [show ((none : Option IRValidationOptions).getD {}) = ({} : IRValidationOptions) from rfl]
  simp only [c6IR, node_checks, List.flatMap_cons, List.flatMap_nil, edge_checks]
  rw [if_neg (by decide : ¬ ((1 : Int) ≤ 0)),
    if_pos (show ¬ (0 ≤ c6Edge.confidence ∧ c6Edge.confidence ≤ 1) from hconf),
    if_neg (show ¬ (pyStrip (cidStr c6Edge.src) = "" ∨
      pyStrip (cidStr c6Edge.dst) = "") from fun h => h.elim hs hd)]
  rfl

/-- Membership in the first-occurrence deduplication with a seen set. -/
theorem mem_dedupFirstAux [DecidableEq α] :
    ∀ (l seen : List α) (x : α),
      x ∈ dedupFirstAux l seen ↔ (x ∈ l ∧ x ∉ seen) := by
  intro l
  induction l with
  | nil => simp [dedupFirstAux]
  | cons a t ih =>
    intro seen x
    by_cases ha : a ∈ seen
    · rw [dedupFirstAux, if_pos ha, ih]
      constructor
      · rintro ⟨hx, hns⟩
        exact ⟨List.mem_cons_of_mem _ hx, hns⟩
      · rintro ⟨hx, hns⟩
        rcases List.mem_cons.mp hx with rfl | hx
        · exact absurd ha hns
        · exact ⟨hx, hns⟩
    · rw [dedupFirstAux, if_neg ha]
      constructor
      · intro hx
        rcases List.mem_cons.mp hx with rfl | hx
        · exact ⟨List.mem_cons_self _ _, ha⟩
        · rw [ih] at hx
          exact ⟨List.mem_cons_of_mem _ hx.1,
            fun hh => hx.2 (List.mem_cons_of_mem _ hh)⟩
      · rintro ⟨hx, hns⟩
        rcases List.mem_cons.mp hx with rfl | hx
        · exact List.mem_cons_self _ _
        · by_cases hxa : x = a
          · subst hxa
            exact List.mem_cons_self _ _
          · exact List.mem_cons_of_mem _
              ((ih _ _).mpr ⟨hx, by simp [List.mem_cons, hxa, hns]⟩)

/-- Function `dedupFirst` keeps exactly the elements of the list. -/
theorem mem_dedupFirst [DecidableEq α] (l : List α) (x : α) :
    x ∈ dedupFirst l ↔ x ∈ l := by
  simp [dedupFirst, mem_dedupFirstAux]

/-- Function `dedupFirst` has no duplicates. -/
theorem nodup_dedupFirstAux [DecidableEq α] :
    ∀ (l seen : List α), (dedupFirstAux l seen).Nodup := by
  intro l
  induction l with
  | nil => simp [dedupFirstAux]
  | cons a t ih =>
    intro seen
    rw [dedupFirstAux]
    split_ifs with ha
    · exact ih seen
    · refine List.nodup_cons.mpr ⟨?_, ih _⟩
      rw [mem_dedupFirstAux]
      rintro ⟨-, h⟩
      exact h (List.mem_cons_self _ _)

/-- Function `dedupFirstAux` is a sublist of its input. -/
theorem dedupFirstAux_sublist [DecidableEq α] :
    ∀ (l seen : List α), List.Sublist (dedupFirstAux l seen) l := by
  intro l
  induction l with
  | nil => simp [dedupFirstAux]
  | cons a t ih =>
    intro seen
    rw [dedupFirstAux]
    split_ifs with ha
    · exact (ih seen).cons a
    · exact (ih _).cons₂ a

/-- A successful dict lookup returns a stored violation with the looked-up
key. -/
theorem dict_get_spec (vs : List Violation) (k : String) (v : Violation)
    (h : dict_get vs k = some v) : key_for v = k ∧ v ∈ vs := by
  have h1 := List.find?_some h
  have h2 := List.mem_of_find?_eq_some h
  exact ⟨by simpa using h1, List.mem_reverse.mp h2⟩

/-- The dict lookup succeeds on every key of the collection. -/
theorem dict_get_total (vs : List Violation) (k : String)
    (h : k ∈ vs.map key_for) : ∃ v, dict_get vs k = some v := by
  rcases hf : dict_get vs k with _ | v
  · exfalso
    obtain ⟨w, hw, hkw⟩ := List.mem_map.mp h
    have := List.find?_eq_none.mp hf w (List.mem_reverse.mpr hw)
    simp [hkw] at this
  · exact ⟨v, rfl⟩

/-- Resolving a list of keys of the collection through the dict keeps
exactly those keys. -/
theorem filterMap_dict_get_keys (vs : List Violation) :
    ∀ ks : List String, (∀ k ∈ ks, k ∈ vs.map key_for) →
      (ks.filterMap (dict_get vs)).map key_for = ks := by
  intro ks
  induction ks with
  | nil => simp
  | cons k t ih =>
    intro hall
    obtain ⟨v, hv⟩ := dict_get_total vs k (hall k (List.mem_cons_self _ _))
    rw [List.filterMap_cons, hv, List.map_cons, (dict_get_spec vs k v hv).1,
      ih (fun x hx => hall x (List.mem_cons_of_mem _ hx))]

/-- Every violation resolved through the dict comes from the collection. -/
theorem filterMap_dict_get_sub (vs : List Violation) (ks : List String) :
    ∀ v ∈ ks.filterMap (dict_get vs), v ∈ vs := by
  intro v h
  obtain ⟨k, _, hv⟩ := List.mem_filterMap.mp h
  exact (dict_get_spec vs k v hv).2

/-- Function `sortStrings` is a permutation of its input. -/
theorem sortStrings_perm (l : List String) : (sortStrings l).Perm l :=
  List.perm_insertionSort _ _

/-- Function `sortStrings` sorts. -/
theorem sortStrings_sorted (l : List String) : List.Sorted pyLe (sortStrings l) :=
  List.sorted_insertionSort _ _

/-- A sorted duplicate-free string list is strictly increasing. -/
theorem sorted_nodup_pairwise_lt {l : List String}
    (hs : List.Sorted pyLe l) (hn : l.Nodup) : List.Pairwise pyLt l :=
  (hs.and hn).imp (fun h =>
    lt_of_le_of_ne h.1 (fun hd => h.2 (str_data_inj hd)))

/-- C4: `compare` returns three key-sorted sequences drawn from the two
collections, whose key sets are exactly current-minus-baseline,
current-intersect-baseline and baseline-minus-current; hence new/existing
keys cover the current keys, existing/fixed keys cover the baseline keys,
and new and fixed share no key. -/
theorem baseline_compare_spec (cur base : List Violation) :
    (List.Pairwise pyLt ((compare cur base).new.map key_for) ∧
     List.Pairwise pyLt ((compare cur base).existing.map key_for) ∧
     List.Pairwise pyLt ((compare cur base).fixed.map key_for)) ∧
    ((∀ v ∈ (compare cur base).new, v ∈ cur) ∧
     (∀ v ∈ (compare cur base).existing, v ∈ cur) ∧
     (∀ v ∈ (compare cur base).fixed, v ∈ base)) ∧
    (∀ k, k ∈ (compare cur base).new.map key_for ↔
      (k ∈ cur.map key_for ∧ k ∉ base.map key_for)) ∧
    (∀ k, k ∈ (compare cur base).existing.map key_for ↔
      (k ∈ cur.map key_for ∧ k ∈ base.map key_for)) ∧
    (∀ k, k ∈ (compare cur base).fixed.map key_for ↔
      (k ∈ base.map key_for ∧ k ∉ cur.map key_for)) ∧
    (∀ k, (k ∈ (compare cur base).new.map key_for ∨
      k ∈ (compare cur base).existing.map key_for) ↔ k ∈ cur.map key_for) ∧
    (∀ k, (k ∈ (compare cur base).existing.map key_for ∨
      k ∈ (compare cur base).fixed.map key_for) ↔ k ∈ base.map key_for) ∧
    (∀ k, ¬ (k ∈ (compare cur base).new.map key_for ∧
      k ∈ (compare cur base).fixed.map key_for)) ∧
    (∀ v ∈ cur, key_for v ∉ base.map key_for →
      ∃ w ∈ (compare cur base).new, key_for w = key_for v) ∧
    (∀ v ∈ cur, key_for v ∈ base.map key_for →
      ∃ w ∈ (compare cur base).existing, key_for w = key_for v) ∧
    (∀ v ∈ base, key_for v ∉ cur.map key_for →
      ∃ w ∈ (compare cur base).fixed, key_for w = key_for v) := by
  have hmem_dk : ∀ (vs : List Violation) (k : String),
      k ∈ dict_keys vs ↔ k ∈ vs.map key_for := by
    intro vs k
    exact mem_dedupFirst _ _
  have hnew_keys : (compare cur base).new.map key_for =
      sortStrings ((dict_keys cur).filter
        (fun k => decide (k ∉ dict_keys base))) := by
    refine filterMap_dict_get_keys cur _ (fun k hk => ?_)
    have := (sortStrings_perm _).mem_iff.mp hk
    exact (hmem_dk cur k).mp (List.mem_of_mem_filter this)
  have hex_keys : (compare cur base).existing.map key_for =
      sortStrings ((dict_keys cur).filter
        (fun k => decide (k ∈ dict_keys base))) := by
    refine filterMap_dict_get_keys cur _ (fun k hk => ?_)
    have := (sortStrings_perm _).mem_iff.mp hk
    exact (hmem_dk cur k).mp (List.mem_of_mem_filter this)
  have hfix_keys : (compare cur base).fixed.map key_for =
      sortStrings ((dict_keys base).filter
        (fun k => decide (k ∉ dict_keys cur))) := by
    refine filterMap_dict_get_keys base _ (fun k hk => ?_)
    have := (sortStrings_perm _).mem_iff.mp hk
    exact (hmem_dk base k).mp (List.mem_of_mem_filter this)
  have hnodup : ∀ (vs : List Violation) (p : String → Bool),
      (sortStrings ((dict_keys vs).filter p)).Nodup := by
    intro vs p
    exact (sortStrings_perm _).nodup_iff.mpr
      ((nodup_dedupFirstAux _ _).filter p)
  have hnew_mem : ∀ k, k ∈ (compare cur base).new.map key_for ↔
      (k ∈ cur.map key_for ∧ k ∉ base.map key_for) := by
    intro k
    rw [hnew_keys, (sortStrings_perm _).mem_iff, List.mem_filter]
    simp [hmem_dk]
  have hex_mem : ∀ k, k ∈ (compare cur base).existing.map key_for ↔
      (k ∈ cur.map key_for ∧ k ∈ base.map key_for) := by
    intro k
    rw [hex_keys, (sortStrings_perm _).mem_iff, List.mem_filter]
    simp [hmem_dk]
  have hfix_mem : ∀ k, k ∈ (compare cur base).fixed.map key_for ↔
      (k ∈ base.map key_for ∧ k ∉ cur.map key_for) := by
    intro k
    rw [hfix_keys, (sortStrings_perm _).mem_iff, List.mem_filter]
    simp [hmem_dk]
  refine ⟨⟨?_, ?_, ?_⟩, ⟨?_, ?_, ?_⟩, hnew_mem, hex_mem, hfix_mem, ?_, ?_, ?_,
    ?_, ?_, ?_⟩
  · rw [hnew_keys]
    exact sorted_nodup_pairwise_lt (sortStrings_sorted _) (hnodup _ _)
  · rw [hex_keys]
    exact sorted_nodup_pairwise_lt (sortStrings_sorted _) (hnodup _ _)
  · rw [hfix_keys]
    exact sorted_nodup_pairwise_lt (sortStrings_sorted _) (hnodup _ _)
  · exact filterMap_dict_get_sub cur _
  · exact filterMap_dict_get_sub cur _
  · exact filterMap_dict_get_sub base _
  · intro k
    rw [hnew_mem, hex_mem]
    by_cases hb : k ∈ base.map key_for <;> simp [hb]
  · intro k
    rw [hex_mem, hfix_mem]
    by_cases hc : k ∈ cur.map key_for <;> simp [hc]
  · intro k
    rw [hnew_mem, hfix_mem]
    tauto
  · intro v hv hnb
    exact List.mem_map.mp ((hnew_mem (key_for v)).mpr
      ⟨List.mem_map_of_mem _ hv, hnb⟩) |>.imp
      (fun w hw => ⟨hw.1, hw.2⟩)
  · intro v hv hb
    exact List.mem_map.mp ((hex_mem (key_for v)).mpr
      ⟨List.mem_map_of_mem _ hv, hb⟩) |>.imp
      (fun w hw => ⟨hw.1, hw.2⟩)
  · intro v hv hnc
    exact List.mem_map.mp ((hfix_mem (key_for v)).mpr
      ⟨List.mem_map_of_mem _ hv, hnc⟩) |>.imp
      (fun w hw => ⟨hw.1, hw.2⟩)

/-- C4 witness: current `[wViolA, wViolB]` against baseline `[wViolA2]`
(same logical violation as `wViolA`): `wViolA` is existing, `wViolB` is
new, nothing is fixed. -/
theorem baseline_compare_spec_witness :
    (compare [wViolA, wViolB] [wViolA2]).new = [wViolB] ∧
    (compare [wViolA, wViolB] [wViolA2]).existing = [wViolA] ∧
    (compare [wViolA, wViolB] [wViolA2]).fixed = [] ∧
    key_for wViolB ∈ (compare [wViolA, wViolB] [wViolA2]).new.map key_for := by
  refine ⟨by decide, by decide, by decide, ?_⟩
  exact ((baseline_compare_spec [wViolA, wViolB] [wViolA2]).2.2.1
    (key_for wViolB)).mpr ⟨by decide, by decide⟩

/-- Function `List.maximum` only depends on the multiset of elements. -/
theorem maximum_perm [LinearOrder α] {l1 l2 : List α} (h : l1.Perm l2) :
    l1.maximum = l2.maximum := by
  cases hm : l2.maximum with
  | bot =>
    have h2 : l2 = [] := List.maximum_eq_bot.mp hm
    subst h2
    rw [h.eq_nil]
    exact List.maximum_nil
  | coe m =>
    have hc := List.maximum_eq_coe_iff.mp hm
    exact List.maximum_eq_coe_iff.mpr
      ⟨h.mem_iff.mpr hc.1, fun a ha => hc.2 a (h.mem_iff.mp ha)⟩

/-- Sorting under a linear order only depends on the multiset of
elements. -/
theorem insertionSort_perm_eq [LinearOrder α] {l1 l2 : List α}
    (h : l1.Perm l2) :
    l1.insertionSort (· ≤ ·) = l2.insertionSort (· ≤ ·) := by
  refine List.eq_of_perm_of_sorted ?_ (List.sorted_insertionSort _ _)
    (List.sorted_insertionSort _ _)
  exact (List.perm_insertionSort _ _).trans
    (h.trans (List.perm_insertionSort _ _).symm)

/-- Function `flatMap` preserves permutations. -/
theorem flatMap_perm {l l' : List α} (f : α → List β) (h : l.Perm l') :
    (l.flatMap f).Perm (l'.flatMap f) := by
  rw [show l.flatMap f = (l.map f).flatten from rfl,
    show l'.flatMap f = (l'.map f).flatten from rfl]
  exact (h.map f).flatten

/-- The merged fact of a node group only depends on the multiset of input
nodes. -/
theorem node_group_best_perm {ns ns' : List IRNode} (h : ns.Perm ns')
    (k : List Char) : node_group_best ns k = node_group_best ns' k := by
  unfold node_group_best
  rw [maximum_perm (h.filter _)]

/-- The merged fact of an edge group only depends on the multiset of input
edges. -/
theorem edge_group_best_perm {es es' : List IREdge} (h : es.Perm es')
    (k : List Char ×ₗ List Char ×ₗ List Char) :
    edge_group_best es k = edge_group_best es' k := by
  unfold edge_group_best
  rw [maximum_perm (h.filter _)]

/-- A merged node group fact carries the group's id key and comes from the
input. -/
theorem node_group_best_key (ns : List IRNode) (k : List Char) (n : IRNode)
    (h : node_group_best ns k = some n) :
    (cidStr n.id).data = k ∧ n ∈ ns := by
  unfold node_group_best at h
  cases hm : (ns.filter (fun x => decide ((cidStr x.id).data = k))).maximum with
  | bot =>
    rw [hm] at h
    simp at h
  | coe m =>
    rw [hm] at h
    have hn : n = m := (Option.some.inj h).symm
    subst hn
    have hmem := List.maximum_mem hm
    have := List.mem_filter.mp hmem
    exact ⟨by simpa using this.2, this.1⟩

/-- A merged edge group fact carries the group's identity key and comes
from the input. -/
theorem edge_group_best_key (es : List IREdge)
    (k : List Char ×ₗ List Char ×ₗ List Char) (e : IREdge)
    (h : edge_group_best es k = some e) : edgeIdKey e = k ∧ e ∈ es := by
  unfold edge_group_best at h
  cases hm : (es.filter (fun x => decide (edgeIdKey x = k))).maximum with
  | bot =>
    rw [hm] at h
    simp at h
  | coe m =>
    rw [hm] at h
    have hn : e = m := (Option.some.inj h).symm
    subst hn
    have hmem := List.maximum_mem hm
    have := List.mem_filter.mp hmem
    exact ⟨by simpa using this.2, this.1⟩

/-- The node group lookup succeeds on every id drawn from the input. -/
theorem node_group_best_total (ns : List IRNode) (k : List Char)
    (hk : k ∈ ns.map (fun n => (cidStr n.id).data)) :
    ∃ n, node_group_best ns k = some n := by
  obtain ⟨n, hn, hkn⟩ := List.mem_map.mp hk
  have hmem : n ∈ ns.filter (fun x => decide ((cidStr x.id).data = k)) :=
    List.mem_filter.mpr ⟨hn, by simpa using hkn⟩
  unfold node_group_best
  cases hm : (ns.filter (fun x => decide ((cidStr x.id).data = k))).maximum with
  | bot =>
    rw [List.maximum_eq_bot.mp hm] at hmem
    cases hmem
  | coe m => exact ⟨m, rfl⟩

/-- The edge group lookup succeeds on every identity drawn from the
input. -/
theorem edge_group_best_total (es : List IREdge)
    (k : List Char ×ₗ List Char ×ₗ List Char) (hk : k ∈ es.map edgeIdKey) :
    ∃ e, edge_group_best es k = some e := by
  obtain ⟨e, he, hke⟩ := List.mem_map.mp hk
  have hmem : e ∈ es.filter (fun x => decide (edgeIdKey x = k)) :=
    List.mem_filter.mpr ⟨he, by simpa using hke⟩
  unfold edge_group_best
  cases hm : (es.filter (fun x => decide (edgeIdKey x = k))).maximum with
  | bot =>
    rw [List.maximum_eq_bot.mp hm] at hmem
    cases hmem
  | coe m => exact ⟨m, rfl⟩

/-- Resolving a key list through a total, key-faithful lookup keeps
exactly those keys. -/
theorem filterMap_keys_eq {κ β : Type} (f : κ → Option β) (key : β → κ)
    (hkey : ∀ k b, f k = some b → key b = k) :
    ∀ ks : List κ, (∀ k ∈ ks, ∃ b, f k = some b) →
      (ks.filterMap f).map key = ks := by
  intro ks
  induction ks with
  | nil => simp
  | cons k t ih =>
    intro hall
    obtain ⟨b, hb⟩ := hall k (List.mem_cons_self _ _)
    rw [List.filterMap_cons, hb, List.map_cons, hkey k b hb,
      ih (fun x hx => hall x (List.mem_cons_of_mem _ hx))]

/-- Function `mergeNodes` returns one node per distinct input canonical id, listed
in strictly ascending id order. -/
theorem mergeNodes_keys (ns : List IRNode) :
    (mergeNodes ns).map (fun n => (cidStr n.id).data) =
      dedupFirst ((ns.map (fun n => (cidStr n.id).data)).insertionSort (· ≤ ·)) := by
  refine filterMap_keys_eq _ _ (fun k n h => (node_group_best_key ns k n h).1) _
    (fun k hk => ?_)
  refine node_group_best_total ns k ?_
  have := (mem_dedupFirst _ _).mp hk
  exact (List.perm_insertionSort _ _).mem_iff.mp this

/-- Function `mergeEdges` keys, analogously. -/
theorem mergeEdges_keys (es : List IREdge) :
    (mergeEdges es).map edgeIdKey =
      dedupFirst ((es.map edgeIdKey).insertionSort (· ≤ ·)) := by
  refine filterMap_keys_eq _ _ (fun k e h => (edge_group_best_key es k e h).1) _
    (fun k hk => ?_)
  refine edge_group_best_total es k ?_
  have := (mem_dedupFirst _ _).mp hk
  exact (List.perm_insertionSort _ _).mem_iff.mp this

/-- Function `mergeNodes` only depends on the multiset of input nodes. -/
theorem mergeNodes_perm {ns ns' : List IRNode} (h : ns.Perm ns') :
    mergeNodes ns = mergeNodes ns' := by
  unfold mergeNodes
  rw [insertionSort_perm_eq (h.map _)]
  congr 1
  funext k
  exact node_group_best_perm h k

/-- Function `mergeEdges` only depends on the multiset of input edges. -/
theorem mergeEdges_perm {es es' : List IREdge} (h : es.Perm es') :
    mergeEdges es = mergeEdges es' := by
  unfold mergeEdges
  rw [insertionSort_perm_eq (h.map _)]
  congr 1
  funext k
  exact edge_group_best_perm h k

/-- A sorted duplicate-free list (of any linearly ordered type) is strictly
increasing. -/
theorem sorted_nodup_pairwise_lt' [LinearOrder α] {l : List α}
    (hs : List.Sorted (· ≤ ·) l) (hn : l.Nodup) :
    List.Pairwise (· < ·) l :=
  (hs.and hn).imp (fun h => lt_of_le_of_ne h.1 h.2)

/-- The strictly ascending key list underlying a merge output. -/
theorem dedup_sort_pairwise_lt [LinearOrder α] [DecidableEq α] (l : List α) :
    List.Pairwise (· < ·) (dedupFirst (l.insertionSort (· ≤ ·))) := by
  refine sorted_nodup_pairwise_lt' ?_ (nodup_dedupFirstAux _ _)
  exact List.Pairwise.sublist (dedupFirstAux_sublist _ _)
    (List.sorted_insertionSort _ _)

/-- C5: merge is order-independent — permuting the raw IR list leaves the
merged node and edge sequences identical (and they are strictly sorted by
canonical id resp. `(src, dst, dep_type)`) — and with zero inputs the
engine uses the designated empty IR for the repo root, whose node and edge
sequences are empty. -/
theorem merge_order_independent (root : String)
    (irs irs' : List ArchitectureIR) (h : irs.Perm irs') :
    ((engine_combined_ir root irs).nodes = (engine_combined_ir root irs').nodes ∧
     (engine_combined_ir root irs).edges = (engine_combined_ir root irs').edges) ∧
    engine_combined_ir root [] = ArchitectureIR.empty root ∧
    (ArchitectureIR.empty root).nodes = [] ∧
    (ArchitectureIR.empty root).edges = [] ∧
    List.Pairwise (fun a b : IRNode => (cidStr a.id).data < (cidStr b.id).data)
      (merge irs).nodes ∧
    List.Pairwise (fun a b : IREdge => edgeIdKey a < edgeIdKey b)
      (merge irs).edges := by
  have hEmpty : irs.isEmpty = irs'.isEmpty := by
    rcases irs with _ | ⟨a, t⟩
    · rw [← h.nil_eq]
    · rcases irs' with _ | ⟨b, u⟩
      · exact absurd h.symm.nil_eq (by simp)
      · rfl
  refine ⟨?_, rfl, rfl, rfl, ?_, ?_⟩
  · unfold engine_combined_ir
    by_cases he : irs.isEmpty
    · rw [if_pos he, if_pos (hEmpty ▸ he)]
      exact ⟨rfl, rfl⟩
    · rw [if_neg he, if_neg (hEmpty ▸ he)]
      exact ⟨mergeNodes_perm (flatMap_perm _ h), mergeEdges_perm (flatMap_perm _ h)⟩
  · have hp := dedup_sort_pairwise_lt
      ((irs.flatMap (·.nodes)).map (fun n => (cidStr n.id).data))
    rw [← mergeNodes_keys (irs.flatMap (·.nodes))] at hp
    exact List.pairwise_map.mp hp
  · have hp := dedup_sort_pairwise_lt ((irs.flatMap (·.edges)).map edgeIdKey)
    rw [← mergeEdges_keys (irs.flatMap (·.edges))] at hp
    exact List.pairwise_map.mp hp

/-- A node without a recorded location. -/
def c5NodeA : IRNode := { id := ⟨.python, "repo", "a"⟩, kind := .module }

/-- The same node identity with a recorded location (more informative). -/
def c5NodeA' : IRNode :=
  { id := ⟨.python, "repo", "a"⟩
    kind := .module
    loc := some ⟨"a.py", ⟨1, 1⟩, none⟩ }

/-- A second node identity. -/
def c5NodeB : IRNode := { id := ⟨.python, "repo", "b"⟩, kind := .module }

/-- First raw producer output. -/
def c5IR1 : ArchitectureIR :=
  { schema_version := 1
    produced_by := "p1"
    repo_root := "/r"
    nodes := [c5NodeB, c5NodeA]
    edges := [] }

/-- Second raw producer output, overlapping on node `a`. -/
def c5IR2 : ArchitectureIR :=
  { schema_version := 1
    produced_by := "p2"
    repo_root := "/r"
    nodes := [c5NodeA']
    edges := [] }

/-- C5 witness: permuting two overlapping raw IRs leaves the merged
sequences identical; the overlap dedups to the loc-bearing fact, sorted by
id; zero inputs give the empty IR. -/
theorem merge_order_independent_witness :
    [c5IR1, c5IR2].Perm [c5IR2, c5IR1] ∧
    (engine_combined_ir "/r" [c5IR1, c5IR2]).nodes =
      (engine_combined_ir "/r" [c5IR2, c5IR1]).nodes ∧
    (engine_combined_ir "/r" [c5IR1, c5IR2]).edges =
      (engine_combined_ir "/r" [c5IR2, c5IR1]).edges ∧
    engine_combined_ir "/r" [] = ArchitectureIR.empty "/r" ∧
    (merge [c5IR1, c5IR2]).nodes = [c5NodeA', c5NodeB] := by
  refine ⟨by decide, (merge_order_independent "/r" _ _ (by decide)).1.1,
    (merge_order_independent "/r" _ _ (by decide)).1.2,
    (merge_order_independent "/r" [] [] (by decide)).2.1, by decide⟩

/-- A `when` mapping containing BOTH `all` and `any`. -/
def c8MultiWhen : PVal :=
  .map [("all", .list [.str "from.layer == domain"]), ("any", .list [])]

/-- C8 counterexample: a `when` mapping with more than one of
`all`/`any`/`not` is NOT rejected — the parser silently commits to `all`
and succeeds, contradicting the claim that only exactly one of the three
keys is accepted. -/
theorem parse_when_multi_key_accepted :
    parse_when_predicate "rules.txt" c8MultiWhen =
      .ok (.andA [.compare "from.layer" "==" ⟨"string", .str "domain"⟩]) := by
  rfl

/-- C8 (amended): the `when` parser errors exactly on a non-mapping or a
mapping with none of `all`/`any`/`not`; otherwise it commits to the first
present key in the fixed order `all`, `any`, `not` (so multiple keys are
accepted, `all` winning) and returns the corresponding combinator over the
parses of that key's items, which may themselves fail. -/
theorem parse_when_spec (fn : String) :
    (∀ w : PVal, (∀ es, w ≠ .map es) →
      parse_when_predicate fn w = .error ⟨"'when' must be a mapping", fn⟩) ∧
    (∀ es, pget es "all" = none → pget es "any" = none →
      pget es "not" = none →
      parse_when_predicate fn (.map es) =
        .error ⟨"when: must contain one of: all, any, not", fn⟩) ∧
    (∀ es v, pget es "all" = some v →
      parse_when_predicate fn (.map es) =
        ((iterElems v).mapM (parse_pred_item fn)).map .andA) ∧
    (∀ es v, pget es "all" = none → pget es "any" = some v →
      parse_when_predicate fn (.map es) =
        ((iterElems v).mapM (parse_pred_item fn)).map .orA) ∧
    (∀ es v, pget es "all" = none → pget es "any" = none →
      pget es "not" = some v →
      parse_when_predicate fn (.map es) = (parse_pred_item fn v).map .notA) := by
  refine ⟨?_, ?_, ?_, ?_, ?_⟩
  · intro w hw
    cases w with
    | map es => exact absurd rfl (hw es)
    | str s => rfl
    | list l => rfl
  · intro es h1 h2 h3
    simp only [parse_when_predicate]
    rw [h1, h2, h3]
  · intro es v h1
    simp only [parse_when_predicate]
    rw [h1]
  · intro es v h1 h2
    simp only [parse_when_predicate]
    rw [h1, h2]
  · intro es v h1 h2 h3
    simp only [parse_when_predicate]
    rw [h1, h2, h3]

/-- C8 witness: the amended characterization at concrete inputs — the
multi-key mapping takes the `all` branch, and a mapping with none of the
three keys errors. -/
theorem parse_when_spec_witness :
    parse_when_predicate "rules.txt" c8MultiWhen =
      ((iterElems (.list [.str "from.layer == domain"])).mapM
        (parse_pred_item "rules.txt")).map .andA ∧
    parse_when_predicate "rules.txt"
        (.map [("x", .list [.str "layer == domain"])]) =
      .error ⟨"when: must contain one of: all, any, not", "rules.txt"⟩ := by
  constructor
  · exact (parse_when_spec "rules.txt").2.2.1 _ _ rfl
  · exact (parse_when_spec "rules.txt").2.1 _ rfl rfl rfl

/-- Function `chunksRef` on the empty line list. -/
theorem chunksRef_nil : chunksRef [] = [] := by
  rw [chunksRef]

/-- Function `chunksRef` drops a leading blank line. -/
theorem chunksRef_cons_blank {ln : String} {rest : List String}
    (h : blankLn ln = true) : chunksRef (ln :: rest) = chunksRef rest := by
  rw [chunksRef, if_pos h]

/-- Function `chunksRef` opens a block at a leading non-blank line. -/
theorem chunksRef_cons_nonblank {ln : String} {rest : List String}
    (h : blankLn ln = false) :
    chunksRef (ln :: rest) =
      (ln :: rest.takeWhile (fun x => !blankLn x)) ::
        chunksRef (rest.dropWhile (fun x => !blankLn x)) := by
  rw [chunksRef, if_neg (by simp [h])]

/-- The accumulation loop of `_split_rule_blocks` computes exactly the
maximal non-blank runs, given a partial current run. -/
theorem split_blocks_loop_spec :
    ∀ (l cur : List String), (∀ x ∈ cur, blankLn x = false) →
      split_blocks_loop l cur =
        (if cur.isEmpty then ([] : List (List String))
         else [cur ++ l.takeWhile (fun x => !blankLn x)]) ++
          chunksRef (if cur.isEmpty then l
            else l.dropWhile (fun x => !blankLn x)) := by
  intro l
  induction l with
  | nil =>
    intro cur hcur
    rcases cur with _ | ⟨a, t⟩
    · simp [split_blocks_loop, chunksRef_nil]
    · have ha : blankLn a = false := hcur a (List.mem_cons_self _ _)
      simp [split_blocks_loop, chunksRef_nil, ha]
  | cons ln rest ih =>
    intro cur hcur
    rw [split_blocks_loop]
    by_cases hb : blankLn ln
    · rw [if_pos hb, ih [] (by simp)]
      have htk : (ln :: rest).takeWhile (fun x => !blankLn x) = [] := by
        simp [List.takeWhile_cons, hb]
      have hdr : (ln :: rest).dropWhile (fun x => !blankLn x) = ln :: rest := by
        simp [List.dropWhile_cons, hb]
      rcases cur with _ | ⟨a, t⟩
      · simp [chunksRef_cons_blank hb]
      · have ha : blankLn a = false := hcur a (List.mem_cons_self _ _)
        simp [htk, hdr, chunksRef_cons_blank hb, ha]
    · have hb' : blankLn ln = false := by simpa using hb
      rw [if_neg hb, ih (cur ++ [ln]) ?side]
      case side =>
        intro x hx
        rcases List.mem_append.mp hx with h1 | h1
        · exact hcur x h1
        · rw [List.mem_singleton.mp h1]
          exact hb'
      have htk : (ln :: rest).takeWhile (fun x => !blankLn x) =
          ln :: rest.takeWhile (fun x => !blankLn x) := by
        simp [List.takeWhile_cons, hb']
      have hdr : (ln :: rest).dropWhile (fun x => !blankLn x) =
          rest.dropWhile (fun x => !blankLn x) := by
        simp [List.dropWhile_cons, hb']
      rcases cur with _ | ⟨a, t⟩
      · simp [htk, hdr, chunksRef_cons_nonblank hb']
      · simp [htk, hdr, chunksRef_cons_nonblank hb']

/-- Every chunk is a nonempty run of non-blank lines. -/
theorem chunksRef_props : ∀ (l : List String), ∀ b ∈ chunksRef l,
    b ≠ [] ∧ ∀ x ∈ b, blankLn x = false := by
  have main : ∀ (n : Nat) (l : List String), l.length ≤ n →
      ∀ b ∈ chunksRef l, b ≠ [] ∧ ∀ x ∈ b, blankLn x = false := by
    intro n
    induction n with
    | zero =>
      intro l hl b hb
      rw [List.length_eq_zero.mp (Nat.le_zero.mp hl), chunksRef_nil] at hb
      cases hb
    | succ n ihn =>
      intro l hl b hb
      rcases l with _ | ⟨ln, rest⟩
      · rw [chunksRef_nil] at hb
        cases hb
      · by_cases hbl : blankLn ln
        · rw [chunksRef_cons_blank hbl] at hb
          exact ihn rest (by simp at hl; omega) b hb
        · have hb' : blankLn ln = false := by simpa using hbl
          rw [chunksRef_cons_nonblank hb'] at hb
          rcases List.mem_cons.mp hb with rfl | hb2
          · refine ⟨by simp, ?_⟩
            intro x hx
            rcases List.mem_cons.mp hx with rfl | hx2
            · exact hb'
            · have := List.mem_takeWhile_imp hx2
              simpa using this
          · refine ihn (rest.dropWhile (fun x => !blankLn x)) ?_ b hb2
            have := (List.dropWhile_sublist
              (l := rest) (fun x => !blankLn x)).length_le
            simp at hl
            omega
  exact fun l => main l.length l (le_refl _)

/-- On a nonempty all-non-blank block, the "first non-blank line" is the
head line. -/
theorem first_nonblank_head {b : List String} (hne : b ≠ [])
    (hall : ∀ x ∈ b, blankLn x = false) : first_nonblank b = b.headD "" := by
  rcases b with _ | ⟨h, t⟩
  · exact absurd rfl hne
  · unfold first_nonblank
    rw [List.find?_cons_of_pos]
    · rfl
    · simp [hall h (List.mem_cons_self _ _)]

/-- C9 counterexample: a block whose first line is `rule:` preceded by
indentation is NOT ignored — `strip()` removes the indentation and the
block is kept as a rule block, contradicting the claim that only
zero-indentation `rule:` blocks are rules. -/
theorem indented_rule_block_not_ignored :
    split_rule_blocks ["  rule:", "  id: r1"] = ["  rule:\n  id: r1"] := by
  rfl

/-- C9 (amended): a blank-line-separated block is treated as a rule if and
only if its first line (every block line is non-blank, so the first line
is the first non-blank line) equals `"rule:"` after stripping surrounding
whitespace — regardless of indentation; all other blocks are silently
dropped. -/
theorem split_rule_blocks_spec (lines : List String) :
    split_rule_blocks lines =
      ((chunksRef lines).filter
        (fun b => pyStrip (first_nonblank b) = "rule:")).map
        (fun b => String.intercalate "\n" b) ∧
    (∀ b ∈ chunksRef lines, b ≠ [] ∧ (∀ x ∈ b, blankLn x = false) ∧
      first_nonblank b = b.headD "") := by
  constructor
  · unfold split_rule_blocks
    rw [split_blocks_loop_spec lines [] (by simp)]
    simp
  · intro b hb
    obtain ⟨h1, h2⟩ := chunksRef_props lines b hb
    exact ⟨h1, h2, first_nonblank_head h1 h2⟩

/-- C9 witness: on a comment block followed by a rule block, the split
keeps exactly the rule block, matching the block characterization. -/
theorem split_rule_blocks_spec_witness :
    split_rule_blocks ["# comment", "", "rule:", "  id: r1"] =
      ((chunksRef ["# comment", "", "rule:", "  id: r1"]).filter
        (fun b => pyStrip (first_nonblank b) = "rule:")).map
        (fun b => String.intercalate "\n" b) ∧
    split_rule_blocks ["# comment", "", "rule:", "  id: r1"] =
      ["rule:\n  id: r1"] ∧
    chunksRef ["# comment", "", "rule:", "  id: r1"] =
      [["# comment"], ["rule:", "  id: r1"]] := by
  refine ⟨(split_rule_blocks_spec _).1, by rfl, ?_⟩
  rw [chunksRef_cons_nonblank (by decide),
    show List.takeWhile (fun x => !blankLn x) ["", "rule:", "  id: r1"] = []
      by decide,
    show List.dropWhile (fun x => !blankLn x) ["", "rule:", "  id: r1"] =
      ["", "rule:", "  id: r1"] by decide,
    chunksRef_cons_blank (by decide), chunksRef_cons_nonblank (by decide),
    show List.takeWhile (fun x => !blankLn x) ["  id: r1"] = ["  id: r1"]
      by decide,
    show List.dropWhile (fun x => !blankLn x) ["  id: r1"] = [] by decide,
    chunksRef_nil]

end ArchGuard
